import Mathlib

/-!
Shallow embedding, in Lean 4, of the shipping-tracker route/ETA/congestion
engine: the sea-route module (vessel-type speeds, weather speed adjustment,
route synthesis and downsampling, route splitting, distance and arrival
estimation) and the bottleneck module (dynamic severity, proximity check,
per-route delay attribution).

Modelling conventions:
  - JS numbers are rationals; JS Math.round x is floor (x + 1/2);
    JS Math.ceil (a / b) on naturals is (a + b - 1) / b.
  - JS truthiness of a number is value-present-and-nonzero; optional object
    fields are Option values.
  - The haversine distance function is kept as an explicit parameter (hav),
    since every claim below quantifies over the metric rather than over its
    trigonometric details (which are not representable exactly in ℚ).
  - calculateDynamicSeverity reads the current UTC hour and day of week;
    both are explicit arguments here.  Its warnings list (presentation
    strings produced with toFixed) is omitted; no claim mentions it.
  - The external sea router (the searoute library) is modelled by its
    outcome: none when it throws, some coords when it returns a polyline.
-/

namespace ShipTrack

/-- JS Math.round: round half toward positive infinity. -/
def jsRound (q : ℚ) : ℤ := ⌊q + 1/2⌋

/-- A point of a synthesized route: coordinate, display name and type tag
(origin, destination, waypoint, current). -/
structure RoutePoint where
  lat : ℚ
  lng : ℚ
  name : String
  type : String
deriving DecidableEq

/-- Weather reading as passed to adjustSpeedForWeather (open-meteo field
names); absent fields are none. -/
structure VesselWeather where
  wind_speed_10m : Option ℚ
  wave_height : Option ℚ
deriving DecidableEq

/-- Embeds the VESSEL_TYPE_SPEEDS table of the sea-route module, in source
(insertion) order, as scanned by getVesselTypeSpeed. -/
def VESSEL_TYPE_SPEEDS : List (String × ℚ) :=
  [("container", 18), ("cargo", 14), ("bulk", 13), ("tanker", 13),
   ("lng", 17), ("ro-ro", 16), ("passenger", 20), ("fishing", 10),
   ("tug", 12), ("default", 12)]

/-- Boolean test: the first character list is a prefix of the second
(models the start of a JS String.includes scan). -/
def prefixChars : List Char → List Char → Bool
  | [], _ => true
  | _ :: _, [] => false
  | a :: as, b :: bs => a == b && prefixChars as bs

/-- Boolean substring test on character lists (models JS String.includes). -/
def hasSubstring : List Char → List Char → Bool
  | needle, [] => prefixChars needle []
  | needle, b :: bs => prefixChars needle (b :: bs) || hasSubstring needle bs

/-- Embeds getVesselTypeSpeed: lowercase the free-text vessel type and return
the speed of the first table entry whose key occurs in it as a substring,
defaulting to 12. JS !vesselType also catches the empty string. -/
def getVesselTypeSpeed (vesselType : Option String) : ℚ :=
  match vesselType with
  | none => 12
  | some vt =>
    if vt = "" then 12
    else
      match VESSEL_TYPE_SPEEDS.find?
          (fun kv => hasSubstring kv.1.toList (vt.toList.map Char.toLower)) with
      | some kv => kv.2
      | none => 12

/-- Amount subtracted from the speed factor for wind (the guarded factor
update of adjustSpeedForWeather); 0 when the branch is not taken.  The
v ≠ 0 conjunct mirrors the JS truthiness guard on the field. -/
def windReduction (wind : Option ℚ) : ℚ :=
  match wind with
  | some v => if v ≠ 0 ∧ 15 ≤ v then 0.05 * min ((v - 15) / 10) 0.3 else 0
  | none => 0

/-- Amount subtracted from the speed factor for wave height; 0 when the
branch is not taken. -/
def waveReduction (wave : Option ℚ) : ℚ :=
  match wave with
  | some hgt => if hgt ≠ 0 ∧ 2 ≤ hgt then 0.03 * min ((hgt - 2) / 2) 0.2 else 0
  | none => 0

/-- Embeds adjustSpeedForWeather: subtract the wind term and the wave term
from a single factor 1.0, then floor the product at half the base speed. -/
def adjustSpeedForWeather (baseSpeed : ℚ) (weather : Option VesselWeather) : ℚ :=
  match weather with
  | none => baseSpeed
  | some w =>
    max (baseSpeed * (1 - windReduction w.wind_speed_10m - waveReduction w.wave_height))
      (baseSpeed * 0.5)

/-- Indexed filter: keep the elements whose running index satisfies keep
(models the JS Array.filter over (element, index)). -/
def keepIndexed {α : Type} (keep : Nat → Bool) : Nat → List α → List α
  | _, [] => []
  | i, a :: t => if keep i then a :: keepIndexed keep (i + 1) t else keepIndexed keep (i + 1) t

/-- Number of indices j in [i, i + n) with keep j = true. -/
def countFrom (keep : Nat → Bool) : Nat → Nat → Nat
  | _, 0 => 0
  | i, n + 1 => (if keep i then 1 else 0) + countFrom keep (i + 1) n

/-- Embeds downsampleCoordinates: lists not longer than maxPoints pass
through unchanged; otherwise keep the indices that are multiples of
step = ceil(length / maxPoints), plus the last index. -/
def downsampleCoordinates (coords : List (ℚ × ℚ)) (maxPoints : Nat) : List (ℚ × ℚ) :=
  if coords.length ≤ maxPoints then coords
  else
    let step := (coords.length + maxPoints - 1) / maxPoints
    keepIndexed (fun idx => idx % step == 0 || idx == coords.length - 1) 0 coords

/-- Embeds buildSeaRouteCoordinates: none models the searoute library
throwing; a polyline with fewer than 2 vertices is rejected to none. -/
def buildSeaRouteCoordinates (routerResult : Option (List (ℚ × ℚ))) :
    Option (List (ℚ × ℚ)) :=
  match routerResult with
  | none => none
  | some coords => if coords.length < 2 then none else some coords

/-- Indexed map starting at a given index (models Array.forEach with index,
pushing one output per element). -/
def mapWithIndex {α β : Type} (f : Nat → α → β) : Nat → List α → List β
  | _, [] => []
  | i, a :: t => f i a :: mapWithIndex f (i + 1) t

/-- Main branch of calculateRoute: force-replace the first and last points
with the exact requested [lng, lat] coordinates and tag every point
(index 0 origin, last index destination, others waypoint). -/
def routeFromPoints (points : List (ℚ × ℚ)) (originLat originLng destLat destLng : ℚ)
    (originName destName : Option String) : List RoutePoint :=
  let pts := (points.set 0 (originLng, originLat)).set (points.length - 1) (destLng, destLat)
  mapWithIndex (fun idx coord =>
    ⟨coord.2, coord.1,
     if idx = 0 then originName.getD "Origin"
     else if idx = pts.length - 1 then destName.getD "Destination"
     else "Waypoint " ++ toString idx,
     if idx = 0 then "origin"
     else if idx = pts.length - 1 then "destination"
     else "waypoint"⟩) 0 pts

/-- Embeds calculateRoute: downsample the router polyline to 80 points; fall
back to the 2-point [origin, destination] route when fewer than 2 points
survive; otherwise retag via routeFromPoints.  Router coordinates are
[lng, lat] pairs as in GeoJSON. -/
def calculateRoute (routerResult : Option (List (ℚ × ℚ)))
    (originLat originLng destLat destLng : ℚ)
    (originName destName : Option String) : List RoutePoint :=
  let coords := buildSeaRouteCoordinates routerResult
  let points := downsampleCoordinates (coords.getD []) 80
  if points.length < 2 then
    [⟨originLat, originLng, originName.getD "Origin", "origin"⟩,
     ⟨destLat, destLng, destName.getD "Destination", "destination"⟩]
  else
    routeFromPoints points originLat originLng destLat destLng originName destName

/-- The argmin loop of splitRouteByPosition: walk the route keeping the
index of the closest point seen so far; minDist starts at JS Infinity,
modelled by the top element of WithTop ℚ; only a strictly smaller distance
updates the best index (so the earliest minimum wins). -/
def closestScan (dist : RoutePoint → ℚ) :
    List RoutePoint → Nat → Nat → WithTop ℚ → Nat × WithTop ℚ
  | [], _, best, bd => (best, bd)
  | p :: rest, i, best, bd =>
    if (dist p : WithTop ℚ) < bd then closestScan dist rest (i + 1) i (dist p)
    else closestScan dist rest (i + 1) best bd

/-- Index of the first route point at minimal distance (0 on an empty
route, as in the JS loop initialisation). -/
def findClosestIndex (dist : RoutePoint → ℚ) (route : List RoutePoint) : Nat :=
  (closestScan dist route 0 0 ⊤).1

/-- The synthetic waypoint inserted at the split position. -/
def currentMarker (lat lng : ℚ) : RoutePoint :=
  ⟨lat, lng, "Current Position", "current"⟩

/-- Embeds splitRouteByPosition: a route with fewer than 2 points is
returned unchanged as remaining with empty completed; otherwise completed
is the prefix through the closest point plus the marker, and remaining is
the marker followed by the rest. -/
def splitRouteByPosition (hav : ℚ → ℚ → ℚ → ℚ → ℚ) (route : List RoutePoint)
    (currentLat currentLng : ℚ) : List RoutePoint × List RoutePoint :=
  if route.length < 2 then ([], route)
  else
    let closestIndex := findClosestIndex
      (fun p => hav currentLat currentLng p.lat p.lng) route
    (route.take (closestIndex + 1) ++ [currentMarker currentLat currentLng],
     currentMarker currentLat currentLng :: route.drop (closestIndex + 1))

/-- Congestion zone as consumed by the bottleneck module: the static
catalog fields plus the optionally pre-resolved severity/delay fields that
getBottlenecks attaches before route attribution.  radius is in meters. -/
structure Zone where
  id : String
  name : String
  description : String
  lat : ℚ
  lng : ℚ
  radius : ℚ
  baseDelay : ℚ
  estimatedDelay : Option ℚ
  severity : Option String
deriving DecidableEq

/-- Weather reading for a zone (fetchWeatherForZone result); error marks
the failure fallback object. -/
structure ZoneWeather where
  windSpeed : Option ℚ
  waveHeight : Option ℚ
  error : Bool
deriving DecidableEq

/-- Numeric rank of a severity string: low 0, medium 1, high 2. -/
def sevRank (s : String) : Nat :=
  if s = "high" then 2 else if s = "medium" then 1 else 0

/-- Embeds getTimeBasedCongestion: deterministic 0..1 activity level from
the UTC hour, the day of week (0 = Sunday) and the zone identity. -/
def getTimeBasedCongestion (zone : Zone) (hour day : Nat) : ℚ :=
  let a : ℚ := 0.5
  let a := if (6 ≤ hour ∧ hour ≤ 10) ∨ (14 ≤ hour ∧ hour ≤ 18) then a + 0.2 else a
  let a := if day = 0 ∨ day = 6 then a - 0.15 else a
  let a :=
    if zone.id = "suez" ∨ zone.id = "bab-el-mandeb" then a + 0.25
    else if zone.id = "panama" then a + 0.2
    else if zone.id = "singapore" ∨ zone.id = "shanghai" then a + 0.1
    else a
  min 1 (max 0 a)

/-- Wind branch of calculateDynamicSeverity on the (severity, delay) pair. -/
def applyWindImpact (v : ℚ) (sd : String × ℚ) : String × ℚ :=
  if 12 ≤ v then
    if 20 ≤ v then ("high", sd.2 + 90)
    else if 15 ≤ v then ((if sd.1 = "low" then "medium" else sd.1), sd.2 + 45)
    else (sd.1, sd.2 + 15)
  else sd

/-- Wave branch of calculateDynamicSeverity on the (severity, delay) pair. -/
def applyWaveImpact (hgt : ℚ) (sd : String × ℚ) : String × ℚ :=
  if 2 ≤ hgt then
    if 4 ≤ hgt then ("high", sd.2 + 60)
    else if 3 ≤ hgt then ((if sd.1 = "low" then "medium" else sd.1), sd.2 + 30)
    else (sd.1, sd.2 + 10)
  else sd

/-- Base (severity, delay) pair established by the time-based heuristic
alone (the part of calculateDynamicSeverity before the weather block). -/
def activityBase (zone : Zone) (hour day : Nat) : String × ℚ :=
  if 0.75 ≤ getTimeBasedCongestion zone hour day then
    ("high", zone.baseDelay + (jsRound (zone.baseDelay * 0.5) : ℚ))
  else if 0.5 ≤ getTimeBasedCongestion zone hour day then
    ("medium", zone.baseDelay + (jsRound (zone.baseDelay * 0.25) : ℚ))
  else ("low", zone.baseDelay)

/-- Result record of calculateDynamicSeverity (warning strings, which are
presentation only, omitted). -/
structure DynSeverity where
  severity : String
  estimatedDelay : ℚ
  trend : String
  activityLevel : ℤ
deriving DecidableEq

/-- Embeds calculateDynamicSeverity: time-based base severity/delay, raised
by the wind threshold chain then by the wave threshold chain when a
non-error weather reading with the field present is given; trend from the
hour. -/
def calculateDynamicSeverity (zone : Zone) (weather : Option ZoneWeather)
    (hour day : Nat) : DynSeverity :=
  let base := activityBase zone hour day
  let sd :=
    match weather with
    | none => base
    | some w =>
      if w.error then base
      else
        let sd1 :=
          match w.windSpeed with
          | none => base
          | some v => applyWindImpact v base
        match w.waveHeight with
        | none => sd1
        | some hgt => applyWaveImpact hgt sd1
  let trend :=
    if 4 ≤ hour ∧ hour ≤ 8 then "increasing"
    else if 18 ≤ hour ∧ hour ≤ 22 then "decreasing"
    else "stable"
  ⟨sd.1, sd.2, trend, jsRound (getTimeBasedCongestion zone hour day * 100)⟩

/-- One per-zone delay attribution record. -/
structure DelayEntry where
  zoneId : String
  zone : String
  delay : ℚ
  severity : String
  description : String
deriving DecidableEq

/-- Result of calculateRouteBottleneckDelay. -/
structure DelayResult where
  totalDelayMinutes : ℚ
  delays : List DelayEntry
deriving DecidableEq

/-- Loop state of calculateRouteBottleneckDelay: the set of already counted
zone ids (as a list used for membership only), the running total, and the
ordered delay records. -/
structure ScanState where
  passed : List String
  total : ℚ
  delays : List DelayEntry
deriving DecidableEq

/-- Effective zone radius: JS zone.radius || 50000 (0 is falsy). -/
def zoneRadiusEff (z : Zone) : ℚ := if z.radius = 0 then 50000 else z.radius

/-- Delay and severity used for a hit zone: the pre-resolved fields when
estimatedDelay is defined and severity is truthy, else the dynamic
calculation (weather cache and clock supplied through the dyn argument). -/
def resolveDelaySev (dyn : Zone → ℚ × String) (z : Zone) : ℚ × String :=
  match z.estimatedDelay, z.severity with
  | some d, some sv => if sv ≠ "" then (d, sv) else dyn z
  | _, _ => dyn z

/-- One zone check of calculateRouteBottleneckDelay at a waypoint. -/
def stepZone (hav : ℚ → ℚ → ℚ → ℚ → ℚ) (dyn : Zone → ℚ × String) (p : RoutePoint)
    (st : ScanState) (z : Zone) : ScanState :=
  if z.id ∈ st.passed then st
  else if hav p.lat p.lng z.lat z.lng ≤ zoneRadiusEff z then
    ⟨z.id :: st.passed, st.total + (resolveDelaySev dyn z).1,
     st.delays ++ [⟨z.id, z.name, (resolveDelaySev dyn z).1, (resolveDelaySev dyn z).2,
       z.description⟩]⟩
  else st

/-- One waypoint step: waypoints with a zero (falsy) coordinate are skipped
entirely. -/
def stepPoint (hav : ℚ → ℚ → ℚ → ℚ → ℚ) (dyn : Zone → ℚ × String) (zones : List Zone)
    (st : ScanState) (p : RoutePoint) : ScanState :=
  if p.lat = 0 ∨ p.lng = 0 then st
  else zones.foldl (stepZone hav dyn p) st

/-- Embeds calculateRouteBottleneckDelay: fold the remaining route over the
zone catalog, counting each zone id at most once, in route traversal
order. -/
def calculateRouteBottleneckDelay (hav : ℚ → ℚ → ℚ → ℚ → ℚ) (dyn : Zone → ℚ × String)
    (route : List RoutePoint) (zones : List Zone) : DelayResult :=
  if route.isEmpty ∨ zones.isEmpty then ⟨0, []⟩
  else
    let st := route.foldl (stepPoint hav dyn zones) ⟨[], 0, []⟩
    ⟨st.total, st.delays⟩

/-- Boolean version of the zone-hit test used for first-hit indices. -/
def hitAtB (hav : ℚ → ℚ → ℚ → ℚ → ℚ) (z : Zone) (p : RoutePoint) : Bool :=
  !(p.lat == 0 || p.lng == 0) && decide (hav p.lat p.lng z.lat z.lng ≤ zoneRadiusEff z)

/-- First index at which a predicate holds, offset by i; the length of the
list plus i when it never holds. -/
def firstHitAux (pred : RoutePoint → Bool) : Nat → List RoutePoint → Nat
  | i, [] => i
  | i, p :: t => if pred p then i else firstHitAux pred (i + 1) t

/-- First route index that hits a zone (route length when none does). -/
def firstHitIdx (hav : ℚ → ℚ → ℚ → ℚ → ℚ) (z : Zone) (route : List RoutePoint) : Nat :=
  firstHitAux (hitAtB hav z) 0 route

/-- First-hit index of the catalog zone carrying a given id (0 for an
unknown id, which cannot occur for recorded delays). -/
def entryHitIdx (hav : ℚ → ℚ → ℚ → ℚ → ℚ) (zones : List Zone) (route : List RoutePoint)
    (zid : String) : Nat :=
  match zones.find? (fun z => z.id == zid) with
  | some z => firstHitIdx hav z route
  | none => 0

/-- Loop invariant of calculateRouteBottleneckDelay after processing the
route prefix pre: the passed set mirrors the recorded ids, recorded ids are
distinct, records are ordered by the first route index hitting their zone,
all those indices are below the bound, and zones not yet passed were hit by
no prefix point. -/
def ScanInv (hav : ℚ → ℚ → ℚ → ℚ → ℚ) (zones : List Zone) (routeAll : List RoutePoint)
    (pre : List RoutePoint) (bound : Nat) (st : ScanState) : Prop :=
  st.passed = (st.delays.map DelayEntry.zoneId).reverse ∧
  (st.delays.map DelayEntry.zoneId).Nodup ∧
  List.Pairwise (fun a b => entryHitIdx hav zones routeAll a.zoneId ≤
    entryHitIdx hav zones routeAll b.zoneId) st.delays ∧
  (∀ e ∈ st.delays, entryHitIdx hav zones routeAll e.zoneId < bound) ∧
  (∀ z ∈ zones, z.id ∉ st.passed → ∀ q ∈ pre, hitAtB hav z q = false)

/-- Result record of checkBottleneckProximity (presentation fields such as
warnings, trend and weather omitted). -/
structure ProximityResult where
  zone : String
  severity : String
  delayMinutes : ℚ
  description : String
  distance : ℤ
deriving DecidableEq

/-- Catalog scan of checkBottleneckProximity: first zone (catalog order)
whose radius contains the position. -/
def proximityScan (hav : ℚ → ℚ → ℚ → ℚ → ℚ) (dyn : Zone → ℚ × String) :
    List Zone → ℚ → ℚ → Option ProximityResult
  | [], _, _ => none
  | z :: rest, vlat, vlng =>
    if hav vlat vlng z.lat z.lng ≤ z.radius then
      some ⟨z.name, (dyn z).2, (dyn z).1, z.description,
        jsRound (hav vlat vlng z.lat z.lng / 1000)⟩
    else proximityScan hav dyn rest vlat vlng

/-- Embeds checkBottleneckProximity: null for falsy (zero) coordinates,
else the first catalog zone containing the position. -/
def checkBottleneckProximity (hav : ℚ → ℚ → ℚ → ℚ → ℚ) (dyn : Zone → ℚ × String)
    (zones : List Zone) (vesselLat vesselLng : ℚ) : Option ProximityResult :=
  if vesselLat = 0 ∨ vesselLng = 0 then none
  else proximityScan hav dyn zones vesselLat vesselLng

/-- Sum of consecutive haversine distances along a route (km). -/
def routeKmSum (hav : ℚ → ℚ → ℚ → ℚ → ℚ) : List RoutePoint → ℚ
  | [] => 0
  | [_] => 0
  | p :: q :: rest => hav p.lat p.lng q.lat q.lng + routeKmSum hav (q :: rest)

/-- Embeds calculateRouteDistance: total km converted to nautical miles. -/
def calculateRouteDistance (hav : ℚ → ℚ → ℚ → ℚ → ℚ) (route : List RoutePoint) : ℚ :=
  routeKmSum hav route * 0.539957

/-- Options object of estimateArrival. -/
structure ArrivalOptions where
  vesselType : Option String
  weather : Option VesselWeather
  bottlenecks : Option (List Zone)
deriving DecidableEq

/-- Result record of estimateArrival; eta is an epoch-millisecond
timestamp (the ISO string rendering is presentation only). -/
structure ArrivalEstimate where
  eta : ℚ
  distanceRemaining : ℤ
  hoursRemaining : ℤ
  effectiveSpeed : ℚ
  bottleneckDelayMinutes : ℤ
  bottlenecksPassed : List DelayEntry
deriving DecidableEq

/-- The effective-speed computation of estimateArrival: fall back to the
vessel-type speed when the supplied speed is falsy or nonpositive, then
apply the weather adjustment when weather data is supplied. -/
def effectiveSpeedOf (options : ArrivalOptions) (speedKnots : ℚ) : ℚ :=
  let base :=
    if speedKnots ≤ 0 then
      match options.vesselType with
      | some t => getVesselTypeSpeed (some t)
      | none => 12
    else speedKnots
  match options.weather with
  | some w => adjustSpeedForWeather base (some w)
  | none => base

/-- The bottleneck-delay computation of estimateArrival: run
calculateRouteBottleneckDelay on the remaining route when a nonempty zone
catalog is supplied, else no delay. -/
def delayResOf (hav : ℚ → ℚ → ℚ → ℚ → ℚ) (dyn : Zone → ℚ × String)
    (remaining : List RoutePoint) (options : ArrivalOptions) : DelayResult :=
  match options.bottlenecks with
  | some bs =>
    if 0 < bs.length then calculateRouteBottleneckDelay hav dyn remaining bs
    else ⟨0, []⟩
  | none => ⟨0, []⟩

/-- Embeds estimateArrival.  Date.now() is the explicit now argument in
epoch milliseconds.  The JS falsy-or-nonpositive test on speedKnots is
speedKnots ≤ 0. -/
def estimateArrival (hav : ℚ → ℚ → ℚ → ℚ → ℚ) (dyn : Zone → ℚ × String) (now : ℚ)
    (route : List RoutePoint) (currentLat currentLng speedKnots : ℚ)
    (options : ArrivalOptions) : ArrivalEstimate :=
  let remaining := (splitRouteByPosition hav route currentLat currentLng).2
  let remainingDistance := calculateRouteDistance hav remaining
  let effectiveSpeed := effectiveSpeedOf options speedKnots
  let delayRes := delayResOf hav dyn remaining options
  let hoursRemaining := remainingDistance / effectiveSpeed + delayRes.totalDelayMinutes / 60
  let eta := now + hoursRemaining * 60 * 60 * 1000
  ⟨eta, jsRound remainingDistance, jsRound hoursRemaining,
   (jsRound (effectiveSpeed * 10) : ℚ) / 10, jsRound delayRes.totalDelayMinutes,
   delayRes.delays⟩

/-- The wind factor term is between 0 and 0.015. -/
theorem wind_term_bounds (v : ℚ) (h : 15 ≤ v) :
    0 ≤ 0.05 * min ((v - 15) / 10) 0.3 ∧ 0.05 * min ((v - 15) / 10) 0.3 ≤ 0.015 := by
  constructor
  · have h0 : (0 : ℚ) ≤ (v - 15) / 10 := by
      have : (0 : ℚ) ≤ v - 15 := by linarith
      positivity
    have : (0 : ℚ) ≤ min ((v - 15) / 10) 0.3 := le_min h0 (by norm_num)
    nlinarith
  · have : min ((v - 15) / 10) 0.3 ≤ 0.3 := min_le_right _ _
    nlinarith

/-- The wave factor term is between 0 and 0.006. -/
theorem wave_term_bounds (v : ℚ) (h : 2 ≤ v) :
    0 ≤ 0.03 * min ((v - 2) / 2) 0.2 ∧ 0.03 * min ((v - 2) / 2) 0.2 ≤ 0.006 := by
  constructor
  · have h0 : (0 : ℚ) ≤ (v - 2) / 2 := by
      have : (0 : ℚ) ≤ v - 2 := by linarith
      positivity
    have : (0 : ℚ) ≤ min ((v - 2) / 2) 0.2 := le_min h0 (by norm_num)
    nlinarith
  · have : min ((v - 2) / 2) 0.2 ≤ 0.2 := min_le_right _ _
    nlinarith

/-- The wind reduction is always between 0 and 0.015 (a 1.5% cap). -/
theorem windReduction_bounds (wind : Option ℚ) :
    0 ≤ windReduction wind ∧ windReduction wind ≤ 0.015 := by
  match wind with
  | none => constructor <;> norm_num [windReduction]
  | some v =>
    simp only [windReduction]
    split_ifs with h
    · exact ⟨(wind_term_bounds v h.2).1, (wind_term_bounds v h.2).2⟩
    · exact ⟨le_refl 0, by norm_num⟩

/-- The wave reduction is always between 0 and 0.006 (a 0.6% cap). -/
theorem waveReduction_bounds (wave : Option ℚ) :
    0 ≤ waveReduction wave ∧ waveReduction wave ≤ 0.006 := by
  match wave with
  | none => constructor <;> norm_num [waveReduction]
  | some v =>
    simp only [waveReduction]
    split_ifs with h
    · exact ⟨(wave_term_bounds v h.2).1, (wave_term_bounds v h.2).2⟩
    · exact ⟨le_refl 0, by norm_num⟩

/-- C1 (counterexample): the claim predicts that at wind 25 m/s and base
speed 14 kn the adjusted speed clamps at exactly 7 kn; the code instead
subtracts only 0.05 * min((25-15)/10, 0.3) = 1.5% of the factor, giving
13.79 kn, so the claimed 30%-per-wind / 20%-per-wave reductions and the
7-kn clamp do not describe the code. -/
theorem C1_storm_speed_counterexample :
    adjustSpeedForWeather 14 (some ⟨some 25, none⟩) = 1379/100 ∧
      ((1379 : ℚ)/100) ≠ 7 := by
  constructor
  · show max (14 * (1 - windReduction (some 25) - waveReduction none)) (14 * 0.5) = 1379/100
    norm_num [windReduction, waveReduction]
  · norm_num

/-- C1 (amended): adjustSpeedForWeather reduces speed by at most 1.5% for
wind (term 0.05 * min((wind-15)/10, 0.3)) plus at most 0.6% for wave height
(term 0.03 * min((wave-2)/2, 0.2)), both subtracted from a single factor
before one multiplication, with a (never binding) floor of half the base
speed: for every nonnegative base speed the result lies between 97.9% and
100% of the base; at wind 25 m/s and base 14 kn it is 13.79 kn, not 7. -/
theorem C1_adjust_speed_amended (b : ℚ) (hb : 0 ≤ b) (w : Option VesselWeather) :
    b * 0.979 ≤ adjustSpeedForWeather b w ∧ adjustSpeedForWeather b w ≤ b := by
  match w with
  | none =>
    simp only [adjustSpeedForWeather]
    exact ⟨by nlinarith, le_refl b⟩
  | some ww =>
    have hwind := windReduction_bounds ww.wind_speed_10m
    have hwave := waveReduction_bounds ww.wave_height
    show b * 0.979 ≤ max (b * _) (b * 0.5) ∧ max (b * _) (b * 0.5) ≤ b
    constructor
    · exact le_trans (by nlinarith [hwind.1, hwind.2, hwave.1, hwave.2]) (le_max_left _ _)
    · exact max_le (by nlinarith [hwind.1, hwave.1]) (by nlinarith)

/-- Witness for C1_adjust_speed_amended at base 14 kn, wind 25 m/s. -/
theorem C1_adjust_speed_amended_witness :
    (0 : ℚ) ≤ 14 ∧ 14 * 0.979 ≤ adjustSpeedForWeather 14 (some ⟨some 25, none⟩) :=
  ⟨by norm_num, (C1_adjust_speed_amended 14 (by norm_num) (some ⟨some 25, none⟩)).1⟩

/-- C2: for every positive base speed and every weather input (missing
fields included), the weather-adjusted speed is at least half the base. -/
theorem C2_speed_floor (b : ℚ) (hb : 0 < b) (w : Option VesselWeather) :
    0.5 * b ≤ adjustSpeedForWeather b w := by
  match w with
  | none =>
    simp only [adjustSpeedForWeather]
    nlinarith
  | some ww =>
    show 0.5 * b ≤ max (b * _) (b * 0.5)
    exact le_trans (by nlinarith) (le_max_right _ _)

/-- Witness for C2_speed_floor at base 14 kn, severe wind and waves. -/
theorem C2_speed_floor_witness :
    (0 : ℚ) < 14 ∧ 0.5 * 14 ≤ adjustSpeedForWeather 14 (some ⟨some 40, some 9⟩) :=
  ⟨by norm_num, C2_speed_floor 14 (by norm_num) (some ⟨some 40, some 9⟩)⟩

/-- Length of an indexed filter equals the count of kept indices. -/
theorem keepIndexed_length {α : Type} (keep : Nat → Bool) :
    ∀ (l : List α) (i : Nat), (keepIndexed keep i l).length = countFrom keep i l.length := by
  intro l
  induction l with
  | nil => intro i; rfl
  | cons a t ih =>
    intro i
    simp only [keepIndexed, countFrom, List.length_cons]
    split_ifs with h <;> simp [h, ih (i + 1)] <;> omega

/-- Count of a disjunction of predicates is at most the sum of the counts. -/
theorem countFrom_or_le (p q : Nat → Bool) :
    ∀ (n i : Nat),
      countFrom (fun j => p j || q j) i n ≤ countFrom p i n + countFrom q i n := by
  intro n
  induction n with
  | zero => intro i; simp [countFrom]
  | succ m ih =>
    intro i
    have hih := ih (i + 1)
    simp only [countFrom]
    rcases Bool.eq_false_or_eq_true (p i) with hp | hp <;>
      rcases Bool.eq_false_or_eq_true (q i) with hq | hq <;>
      simp [hp, hq] <;> omega

/-- Peel the last index off a count. -/
theorem countFrom_succ_right (keep : Nat → Bool) :
    ∀ (n i : Nat),
      countFrom keep i (n + 1) = countFrom keep i n + (if keep (i + n) then 1 else 0) := by
  intro n
  induction n with
  | zero => intro i; simp [countFrom]
  | succ m ih =>
    intro i
    have h1 : countFrom keep i (m + 1 + 1) =
        (if keep i then 1 else 0) + countFrom keep (i + 1) (m + 1) := rfl
    have h2 : countFrom keep i (m + 1) =
        (if keep i then 1 else 0) + countFrom keep (i + 1) m := rfl
    rw [h1, ih (i + 1), h2]
    have : i + 1 + m = i + (m + 1) := by omega
    rw [this]
    omega

/-- Divisibility as a Boolean mod test. -/
theorem mod_beq_zero_iff (s n : Nat) (hs : 0 < s) : ((n % s == 0) = true) ↔ s ∣ n := by
  constructor
  · intro h
    exact Nat.dvd_of_mod_eq_zero (by simpa using h)
  · intro h
    obtain ⟨c, rfl⟩ := h
    simp [Nat.mul_mod_right]

/-- Count of multiples of s below N is ceil(N / s). -/
theorem countFrom_multiples (s : Nat) (hs : 1 ≤ s) :
    ∀ (N : Nat), countFrom (fun j => j % s == 0) 0 N = (N + s - 1) / s := by
  intro N
  induction N with
  | zero =>
    simp [countFrom, Nat.div_eq_of_lt (show s - 1 < s by omega)]
  | succ M ih =>
    rw [countFrom_succ_right, ih]
    simp only [Nat.zero_add]
    rcases Nat.eq_zero_or_pos M with hM | hM
    · subst hM
      have h1 : (s - 1) / s = 0 := Nat.div_eq_of_lt (by omega)
      have h2 : s / s = 1 := Nat.div_self (by omega)
      simp [h1, h2]
    · obtain ⟨K, rfl⟩ : ∃ K, M = K + 1 := ⟨M - 1, by omega⟩
      have d1 : (K + 1 + 1 + s - 1) / s = (K + 1) / s + 1 := by
        rw [show K + 1 + 1 + s - 1 = (K + 1) + s by omega,
          Nat.add_div_right _ (show 0 < s by omega)]
      have d2 : (K + 1 + s - 1) / s = K / s + 1 := by
        rw [show K + 1 + s - 1 = K + s by omega,
          Nat.add_div_right _ (show 0 < s by omega)]
      rw [d1, d2, Nat.succ_div]
      by_cases hd : s ∣ K + 1
      · have hb : (((K + 1) % s == 0) : Bool) = true :=
          (mod_beq_zero_iff s (K + 1) (by omega)).2 hd
        simp only [hb, if_true, if_pos hd]
      · have hb : (((K + 1) % s == 0) : Bool) = false := by
          rcases Bool.eq_false_or_eq_true ((K + 1) % s == 0) with h | h
          · exact absurd ((mod_beq_zero_iff s (K + 1) (by omega)).1 h) hd
          · exact h
        simp only [hb, Bool.false_eq_true, if_false, if_neg hd]

/-- No index in [i, i + n) equals a value below i. -/
theorem countFrom_eq_zero_of_lt (c : Nat) :
    ∀ (n i : Nat), c < i → countFrom (fun j => j == c) i n = 0 := by
  intro n
  induction n with
  | zero => intro i _; rfl
  | succ m ih =>
    intro i hi
    have h1 : (i == c) = false := by simp; omega
    simp only [countFrom, h1, Bool.false_eq_true, if_false, Nat.zero_add]
    exact ih (i + 1) (by omega)

/-- At most one index equals a given value. -/
theorem countFrom_single_le (c : Nat) :
    ∀ (n i : Nat), countFrom (fun j => j == c) i n ≤ 1 := by
  intro n
  induction n with
  | zero => intro i; simp [countFrom]
  | succ m ih =>
    intro i
    simp only [countFrom]
    by_cases h : i = c
    · subst h
      simp [countFrom_eq_zero_of_lt i m (i + 1) (by omega)]
    · have hne : (i == c) = false := by simp [h]
      simp only [countFrom, hne, Bool.false_eq_true, if_false, Nat.zero_add]
      exact ih (i + 1)

/-- A filter that keeps everything is the identity. -/
theorem keepIndexed_all {α : Type} (keep : Nat → Bool) (hall : ∀ j, keep j = true) :
    ∀ (l : List α) (i : Nat), keepIndexed keep i l = l := by
  intro l
  induction l with
  | nil => intro i; rfl
  | cons a t ih => intro i; simp [keepIndexed, hall i, ih (i + 1)]

/-- Indexed filter distributes over appending a final element. -/
theorem keepIndexed_concat {α : Type} (keep : Nat → Bool) (a : α) :
    ∀ (l : List α) (i : Nat),
      keepIndexed keep i (l ++ [a]) =
        keepIndexed keep i l ++ (if keep (i + l.length) then [a] else []) := by
  intro l
  induction l with
  | nil => intro i; simp [keepIndexed]
  | cons b t ih =>
    intro i
    simp only [List.cons_append, keepIndexed, List.append_eq]
    rw [ih (i + 1)]
    simp only [List.length_cons]
    have he : i + 1 + t.length = i + (t.length + 1) := by omega
    rw [he]
    split_ifs with h <;> simp

set_option maxRecDepth 4000 in
/-- C7 (counterexample): a router polyline of exactly 160 coordinates is
downsampled with stride ceil(160/80) = 2, keeping the 80 even indices plus
the odd last index 159, i.e. 81 points — the claimed budget of 80 points is
exceeded. -/
theorem C7_downsample_counterexample :
    (downsampleCoordinates (List.replicate 160 ((0 : ℚ), (0 : ℚ))) 80).length = 81 ∧
      ¬((downsampleCoordinates (List.replicate 160 ((0 : ℚ), (0 : ℚ))) 80).length ≤ 80) := by
  constructor <;> decide

/-- C7 (amended): for every nonempty router polyline, downsampling with
budget 80 (as calculateRoute does) keeps exactly the indices i with
i % stride = 0 or i = N - 1, stride = ceil(N / 80); the first and last
points are always retained, and the result has at most 81 points (not 80:
when N is a multiple of the stride, the forced last index is an 81st
point). -/
theorem C7_downsample_amended (coords : List (ℚ × ℚ)) (h : coords ≠ []) :
    downsampleCoordinates coords 80 =
      keepIndexed
        (fun idx => idx % ((coords.length + 79) / 80) == 0 || idx == coords.length - 1)
        0 coords ∧
    (downsampleCoordinates coords 80).head? = coords.head? ∧
    (downsampleCoordinates coords 80).getLast? = coords.getLast? ∧
    (downsampleCoordinates coords 80).length ≤ 81 := by
  have hN : 1 ≤ coords.length := List.length_pos.mpr h
  have hchar : downsampleCoordinates coords 80 =
      keepIndexed
        (fun idx => idx % ((coords.length + 79) / 80) == 0 || idx == coords.length - 1)
        0 coords := by
    by_cases hle : coords.length ≤ 80
    · have hs : (coords.length + 79) / 80 = 1 := by omega
      have hall : ∀ j,
          ((j % ((coords.length + 79) / 80) == 0 || j == coords.length - 1) : Bool) = true := by
        intro j
        simp [hs, Nat.mod_one]
      rw [keepIndexed_all _ hall]
      simp [downsampleCoordinates, hle]
    · have hstep : coords.length + 80 - 1 = coords.length + 79 := by omega
      simp only [downsampleCoordinates, if_neg hle, hstep]
  have hs1 : 1 ≤ (coords.length + 79) / 80 := by omega
  refine ⟨hchar, ?_, ?_, ?_⟩
  · rw [hchar]
    match coords, h with
    | a :: t, _ =>
      have hp : ((0 % ((a :: t).length + 79) / 80 == 0 || 0 == (a :: t).length - 1) : Bool)
          = true := by
        simp [Nat.zero_mod]
      simp [keepIndexed, Nat.zero_mod]
  · rw [hchar]
    rcases List.eq_nil_or_concat coords with hnil | ⟨l, a, hla⟩
    · exact absurd hnil h
    · subst hla
      simp only [List.concat_eq_append]
      rw [keepIndexed_concat]
      have hkeep : (((0 + l.length) % (((l ++ [a]).length + 79) / 80) == 0) ||
          ((0 + l.length) == (l ++ [a]).length - 1)) = true := by
        simp [List.length_append]
      rw [if_pos hkeep]
      simp
  · rw [hchar, keepIndexed_length]
    have hle2 := countFrom_or_le (fun j => j % ((coords.length + 79) / 80) == 0)
      (fun j => j == coords.length - 1) coords.length 0
    have hm := countFrom_multiples ((coords.length + 79) / 80) hs1 coords.length
    have hsingle := countFrom_single_le (coords.length - 1) coords.length 0
    have hdm := Nat.div_add_mod (coords.length + 79) 80
    have hmlt : (coords.length + 79) % 80 < 80 := Nat.mod_lt _ (by norm_num)
    have hNle : coords.length ≤ 80 * ((coords.length + 79) / 80) := by omega
    have hdiv : (coords.length + (coords.length + 79) / 80 - 1) / ((coords.length + 79) / 80)
        ≤ 80 := by
      have hlt : coords.length + (coords.length + 79) / 80 - 1
          < 81 * ((coords.length + 79) / 80) := by omega
      have := (Nat.div_lt_iff_lt_mul (show 0 < (coords.length + 79) / 80 by omega)).mpr
        (by omega : coords.length + (coords.length + 79) / 80 - 1
          < 81 * ((coords.length + 79) / 80))
      omega
    omega

/-- Witness for C7_downsample_amended at the 160-point polyline. -/
theorem C7_downsample_amended_witness :
    (downsampleCoordinates (List.replicate 160 ((0 : ℚ), (0 : ℚ))) 80).length ≤ 81 :=
  (C7_downsample_amended (List.replicate 160 ((0 : ℚ), (0 : ℚ))) (by simp)).2.2.2

/-- Indexed map preserves length. -/
theorem mapWithIndex_length {α β : Type} (f : Nat → α → β) :
    ∀ (l : List α) (i : Nat), (mapWithIndex f i l).length = l.length := by
  intro l
  induction l with
  | nil => intro i; rfl
  | cons a t ih => intro i; simp [mapWithIndex, ih (i + 1)]

/-- Element k of an indexed map is f applied at the offset index. -/
theorem mapWithIndex_getElem {α β : Type} (f : Nat → α → β) :
    ∀ (l : List α) (i k : Nat) (hk : k < l.length)
      (hk2 : k < (mapWithIndex f i l).length),
      (mapWithIndex f i l)[k] = f (i + k) l[k] := by
  intro l
  induction l with
  | nil => intro i k hk hk2; simp at hk
  | cons a t ih =>
    intro i k hk hk2
    cases k with
    | zero => simp [mapWithIndex]
    | succ m =>
      have hm : m < t.length := by simpa using hk
      have hm2 : m < (mapWithIndex f (i + 1) t).length := by
        rw [mapWithIndex_length]; exact hm
      have := ih (i + 1) m hm hm2
      simp only [mapWithIndex, List.getElem_cons_succ]
      rw [this]
      congr 1
      omega

/-- Indexed map distributes over appending a final element. -/
theorem mapWithIndex_concat {α β : Type} (f : Nat → α → β) :
    ∀ (l : List α) (a : α) (i : Nat),
      mapWithIndex f i (l ++ [a]) = mapWithIndex f i l ++ [f (i + l.length) a] := by
  intro l
  induction l with
  | nil => intro a i; simp [mapWithIndex]
  | cons b t ih =>
    intro a i
    simp only [List.cons_append, mapWithIndex, List.append_eq]
    rw [ih a (i + 1)]
    simp only [List.length_cons]
    have he : i + 1 + t.length = i + (t.length + 1) := by omega
    rw [he]

/-- Setting the last position of a concat list replaces the final element. -/
theorem set_last_concat {α : Type} : ∀ (l : List α) (b a : α),
    (l ++ [b]).set l.length a = l ++ [a] := by
  intro l
  induction l with
  | nil => intro b a; rfl
  | cons c t ih => intro b a; simp [List.set, ih b a]

/-- The main branch of calculateRoute keeps the point count and produces
exact endpoints with origin/destination/waypoint tags. -/
theorem routeFromPoints_spec (points : List (ℚ × ℚ)) (h2 : 2 ≤ points.length)
    (originLat originLng destLat destLng : ℚ) (oN dN : Option String) :
    (routeFromPoints points originLat originLng destLat destLng oN dN).length =
      points.length ∧
    (routeFromPoints points originLat originLng destLat destLng oN dN).head? =
      some ⟨originLat, originLng, oN.getD "Origin", "origin"⟩ ∧
    (routeFromPoints points originLat originLng destLat destLng oN dN).getLast? =
      some ⟨destLat, destLng, dN.getD "Destination", "destination"⟩ ∧
    (∀ wp ∈ ((routeFromPoints points originLat originLng destLat destLng oN dN).drop
        1).dropLast, wp.type = "waypoint") := by
  obtain ⟨p0, rest, hp⟩ : ∃ p0 rest, points = p0 :: rest := by
    cases points with
    | nil => simp at h2
    | cons a t => exact ⟨a, t, rfl⟩
  subst hp
  have hr1 : 1 ≤ rest.length := by
    simp only [List.length_cons] at h2
    omega
  obtain ⟨m, hm⟩ : ∃ m, rest.length = m + 1 := ⟨rest.length - 1, by omega⟩
  have hpts : ((p0 :: rest).set 0 (originLng, originLat)).set
      ((p0 :: rest).length - 1) (destLng, destLat) =
      (originLng, originLat) :: rest.set m (destLng, destLat) := by
    simp [List.length_cons, hm]
  have hlen : (routeFromPoints (p0 :: rest) originLat originLng destLat destLng oN dN).length
      = (p0 :: rest).length := by
    simp only [routeFromPoints]
    rw [mapWithIndex_length]
    simp
  refine ⟨hlen, ?_, ?_, ?_⟩
  · simp only [routeFromPoints]
    rw [hpts]
    simp [mapWithIndex]
  · rcases List.eq_nil_or_concat rest with hnil | ⟨r, b, hr⟩
    · rw [hnil] at hm
      simp only [List.length_nil] at hm
      omega
    · rw [List.concat_eq_append] at hr
      subst hr
      have hmr : m = r.length := by
        simp only [List.length_append, List.length_cons, List.length_nil] at hm
        omega
      have hpts2 : ((p0 :: (r ++ [b])).set 0 (originLng, originLat)).set
          ((p0 :: (r ++ [b])).length - 1) (destLng, destLat) =
          ((originLng, originLat) :: r) ++ [(destLng, destLat)] := by
        rw [hpts, hmr, set_last_concat]
        simp
      simp only [routeFromPoints]
      rw [hpts2, mapWithIndex_concat]
      rw [List.getLast?_concat]
      have hlast : (0 : Nat) + ((originLng, originLat) :: r).length =
          (((originLng, originLat) :: r) ++ [(destLng, destLat)]).length - 1 := by
        simp
      rw [hlast]
      simp
  · intro wp hwp
    obtain ⟨i, hi, hig⟩ := List.mem_iff_getElem.mp hwp
    rw [List.getElem_dropLast, List.getElem_drop] at hig
    rw [← hig]
    simp only [List.length_dropLast, List.length_drop, hlen, List.length_cons] at hi
    have hklen : 1 + i < (((p0 :: rest).set 0 (originLng, originLat)).set
        ((p0 :: rest).length - 1) (destLng, destLat)).length := by
      simp only [List.length_set, List.length_cons]
      omega
    have hklen2 : 1 + i <
        (routeFromPoints (p0 :: rest) originLat originLng destLat destLng oN dN).length := by
      rw [hlen]
      simp only [List.length_cons]
      omega
    simp only [routeFromPoints] at hklen2 ⊢
    rw [mapWithIndex_getElem _ _ 0 (1 + i) hklen hklen2]
    have hne0 : ¬(0 + (1 + i) = 0) := by omega
    have hnel : ¬(0 + (1 + i) = (((p0 :: rest).set 0 (originLng, originLat)).set
        ((p0 :: rest).length - 1) (destLng, destLat)).length - 1) := by
      simp only [List.length_set, List.length_cons]
      omega
    simp only [if_neg hne0, if_neg hnel]

/-- C3: calculateRoute always returns at least 2 points; the first point
carries exactly the requested origin coordinate with type origin, the last
carries exactly the requested destination coordinate with type destination,
every intermediate point has type waypoint, and when the external router
throws or yields fewer than 2 vertices the result is exactly the 2-point
[origin, destination] route. -/
theorem C3_route_endpoints (routerResult : Option (List (ℚ × ℚ)))
    (originLat originLng destLat destLng : ℚ) (originName destName : Option String) :
    2 ≤ (calculateRoute routerResult originLat originLng destLat destLng
      originName destName).length ∧
    (calculateRoute routerResult originLat originLng destLat destLng
      originName destName).head? =
      some ⟨originLat, originLng, originName.getD "Origin", "origin"⟩ ∧
    (calculateRoute routerResult originLat originLng destLat destLng
      originName destName).getLast? =
      some ⟨destLat, destLng, destName.getD "Destination", "destination"⟩ ∧
    (∀ wp ∈ ((calculateRoute routerResult originLat originLng destLat destLng
        originName destName).drop 1).dropLast, wp.type = "waypoint") ∧
    (buildSeaRouteCoordinates routerResult = none →
      calculateRoute routerResult originLat originLng destLat destLng originName destName =
        [⟨originLat, originLng, originName.getD "Origin", "origin"⟩,
         ⟨destLat, destLng, destName.getD "Destination", "destination"⟩]) := by
  simp only [calculateRoute]
  by_cases hlen :
      (downsampleCoordinates ((buildSeaRouteCoordinates routerResult).getD []) 80).length < 2
  · simp only [if_pos hlen]
    refine ⟨by simp, by simp, by simp, by simp, ?_⟩
    intro hnone
    trivial
  · simp only [if_neg hlen]
    have h2 : 2 ≤
        (downsampleCoordinates ((buildSeaRouteCoordinates routerResult).getD []) 80).length := by
      omega
    have hs := routeFromPoints_spec
      (downsampleCoordinates ((buildSeaRouteCoordinates routerResult).getD []) 80) h2
      originLat originLng destLat destLng originName destName
    refine ⟨by rw [hs.1]; omega, hs.2.1, hs.2.2.1, hs.2.2.2, ?_⟩
    intro hnone
    rw [hnone] at hlen
    simp [downsampleCoordinates] at hlen

/-- Full characterisation of the argmin scan: the final best distance is a
lower bound of the starting bound and all scanned distances, and either the
initial state survives untouched or the result is the earliest scanned
index realising a distance strictly below everything before it. -/
theorem closestScan_spec (dist : RoutePoint → ℚ) :
    ∀ (l : List RoutePoint) (i best : Nat) (bd : WithTop ℚ),
      ((closestScan dist l i best bd).2 ≤ bd ∧
        ∀ k (hk : k < l.length),
          (closestScan dist l i best bd).2 ≤ (dist (l.get ⟨k, hk⟩) : WithTop ℚ)) ∧
      (((closestScan dist l i best bd).1 = best ∧ (closestScan dist l i best bd).2 = bd) ∨
        ∃ k, ∃ hk : k < l.length,
          (closestScan dist l i best bd).1 = i + k ∧
          (closestScan dist l i best bd).2 = (dist (l.get ⟨k, hk⟩) : WithTop ℚ) ∧
          (∀ j (hj : j < k),
            (closestScan dist l i best bd).2 <
              (dist (l.get ⟨j, by omega⟩) : WithTop ℚ)) ∧
          (closestScan dist l i best bd).2 < bd) := by
  intro l
  induction l with
  | nil =>
    intro i best bd
    refine ⟨⟨le_refl bd, fun k hk => absurd hk (by simp)⟩, Or.inl ⟨rfl, rfl⟩⟩
  | cons p rest ih =>
    intro i best bd
    simp only [closestScan]
    by_cases hlt : (dist p : WithTop ℚ) < bd
    · rw [if_pos hlt]
      obtain ⟨⟨hle, hmin⟩, hcase⟩ := ih (i + 1) i (dist p)
      refine ⟨⟨le_trans hle (le_of_lt hlt), ?_⟩, ?_⟩
      · intro k hk
        cases k with
        | zero => simpa using hle
        | succ k2 =>
          have hk2 : k2 < rest.length := by simpa using hk
          simpa using hmin k2 hk2
      · rcases hcase with ⟨h1, h2⟩ | ⟨k, hk, h1, h2, h3, h4⟩
        · right
          refine ⟨0, by simp, ?_, ?_, ?_, ?_⟩
          · rw [h1]; omega
          · simpa using h2
          · intro j hj
            exact absurd hj (Nat.not_lt_zero j)
          · rw [h2]; exact hlt
        · right
          refine ⟨k + 1, by simpa using hk, ?_, ?_, ?_, lt_trans h4 hlt⟩
          · rw [h1]; omega
          · simpa using h2
          · intro j hj
            cases j with
            | zero => simpa using h4
            | succ j2 =>
              have hj2 : j2 < k := by omega
              simpa using h3 j2 hj2
    · rw [if_neg hlt]
      have hge : bd ≤ (dist p : WithTop ℚ) := not_lt.mp hlt
      obtain ⟨⟨hle, hmin⟩, hcase⟩ := ih (i + 1) best bd
      refine ⟨⟨hle, ?_⟩, ?_⟩
      · intro k hk
        cases k with
        | zero => simpa using le_trans hle hge
        | succ k2 =>
          have hk2 : k2 < rest.length := by simpa using hk
          simpa using hmin k2 hk2
      · rcases hcase with ⟨h1, h2⟩ | ⟨k, hk, h1, h2, h3, h4⟩
        · exact Or.inl ⟨h1, h2⟩
        · right
          refine ⟨k + 1, by simpa using hk, ?_, ?_, ?_, h4⟩
          · rw [h1]; omega
          · simpa using h2
          · intro j hj
            cases j with
            | zero => simpa using lt_of_lt_of_le h4 hge
            | succ j2 =>
              have hj2 : j2 < k := by omega
              simpa using h3 j2 hj2

/-- C4: on a route of at least 2 points, splitRouteByPosition picks the
earliest index minimising the haversine distance to the current position
(strictly smaller than every earlier distance, no larger than every
distance), completed is the prefix through that index plus the
current-position marker, remaining is the marker followed by the rest, and
completed without its marker concatenated with remaining without its marker
reconstructs the route; a route with fewer than 2 points comes back
unchanged as {completed = [], remaining = route}. -/
theorem C4_split_route (hav : ℚ → ℚ → ℚ → ℚ → ℚ) (route : List RoutePoint)
    (clat clng : ℚ) :
    (route.length < 2 → splitRouteByPosition hav route clat clng = ([], route)) ∧
    (2 ≤ route.length →
      ∃ ci, ∃ hci : ci < route.length,
        splitRouteByPosition hav route clat clng =
          (route.take (ci + 1) ++ [currentMarker clat clng],
           currentMarker clat clng :: route.drop (ci + 1)) ∧
        (∀ k (hk : k < route.length),
          hav clat clng (route.get ⟨ci, hci⟩).lat (route.get ⟨ci, hci⟩).lng ≤
            hav clat clng (route.get ⟨k, hk⟩).lat (route.get ⟨k, hk⟩).lng) ∧
        (∀ j (hj : j < ci),
          hav clat clng (route.get ⟨ci, hci⟩).lat (route.get ⟨ci, hci⟩).lng <
            hav clat clng (route.get ⟨j, by omega⟩).lat (route.get ⟨j, by omega⟩).lng) ∧
        (splitRouteByPosition hav route clat clng).1.dropLast ++
          (splitRouteByPosition hav route clat clng).2.drop 1 = route) := by
  constructor
  · intro hlt
    simp [splitRouteByPosition, hlt]
  · intro h2
    have hnlt : ¬(route.length < 2) := by omega
    obtain ⟨⟨hle, hmin⟩, hcase⟩ :=
      closestScan_spec (fun p => hav clat clng p.lat p.lng) route 0 0 ⊤
    rcases hcase with ⟨h1, h2t⟩ | ⟨k, hk, h1, h2e, h3, h4⟩
    · exfalso
      have h0 : 0 < route.length := by omega
      have := hmin 0 h0
      rw [h2t] at this
      simp at this
    · refine ⟨k, hk, ?_, ?_, ?_, ?_⟩
      · simp only [splitRouteByPosition, if_neg hnlt, findClosestIndex, h1, Nat.zero_add]
      · intro j hj
        have := hmin j hj
        rw [h2e] at this
        exact_mod_cast this
      · intro j hj
        have := h3 j hj
        rw [h2e] at this
        exact_mod_cast this
      · simp only [splitRouteByPosition, if_neg hnlt, findClosestIndex, h1, Nat.zero_add]
        rw [List.dropLast_concat]
        simp [List.take_append_drop]

/-- Witness for C4_split_route on a degenerate 1-point route. -/
theorem C4_split_route_witness :
    splitRouteByPosition (fun _ _ _ _ => 0) [⟨3, 4, "p", "waypoint"⟩] 1 2 =
      ([], [⟨3, 4, "p", "waypoint"⟩]) :=
  (C4_split_route (fun _ _ _ _ => 0) [⟨3, 4, "p", "waypoint"⟩] 1 2).1 (by simp)

/-- Severity ranks are at most 2. -/
theorem sevRank_le_two (s : String) : sevRank s ≤ 2 := by
  unfold sevRank
  split_ifs <;> omega

/-- Rank of the high severity string. -/
theorem sevRank_high : sevRank "high" = 2 := by decide

/-- Rank of the medium severity string. -/
theorem sevRank_medium : sevRank "medium" = 1 := by decide

/-- Rank of the low severity string. -/
theorem sevRank_low : sevRank "low" = 0 := by decide

/-- The time-based severity is one of low, medium, high. -/
theorem activityBase_sev_mem (zone : Zone) (hour day : Nat) :
    (activityBase zone hour day).1 = "low" ∨ (activityBase zone hour day).1 = "medium" ∨
      (activityBase zone hour day).1 = "high" := by
  unfold activityBase
  split_ifs <;> simp

/-- The wind branch never lowers severity rank and never lowers delay. -/
theorem applyWindImpact_mono (v : ℚ) (sd : String × ℚ) :
    sevRank sd.1 ≤ sevRank (applyWindImpact v sd).1 ∧ sd.2 ≤ (applyWindImpact v sd).2 := by
  unfold applyWindImpact
  by_cases h1 : 12 ≤ v
  · rw [if_pos h1]
    by_cases h2 : 20 ≤ v
    · rw [if_pos h2]
      refine ⟨?_, ?_⟩
      · show sevRank sd.1 ≤ sevRank "high"
        rw [sevRank_high]
        exact sevRank_le_two sd.1
      · show sd.2 ≤ sd.2 + 90
        linarith
    · rw [if_neg h2]
      by_cases h3 : 15 ≤ v
      · rw [if_pos h3]
        refine ⟨?_, ?_⟩
        · show sevRank sd.1 ≤ sevRank (if sd.1 = "low" then "medium" else sd.1)
          by_cases hlow : sd.1 = "low"
          · rw [if_pos hlow, hlow, sevRank_low, sevRank_medium]
            omega
          · rw [if_neg hlow]
        · show sd.2 ≤ sd.2 + 45
          linarith
      · rw [if_neg h3]
        refine ⟨le_rfl, ?_⟩
        show sd.2 ≤ sd.2 + 15
        linarith
  · rw [if_neg h1]
    exact ⟨le_rfl, le_rfl⟩

/-- The wave branch never lowers severity rank and never lowers delay. -/
theorem applyWaveImpact_mono (hgt : ℚ) (sd : String × ℚ) :
    sevRank sd.1 ≤ sevRank (applyWaveImpact hgt sd).1 ∧ sd.2 ≤ (applyWaveImpact hgt sd).2 := by
  unfold applyWaveImpact
  by_cases h1 : 2 ≤ hgt
  · rw [if_pos h1]
    by_cases h2 : 4 ≤ hgt
    · rw [if_pos h2]
      refine ⟨?_, ?_⟩
      · show sevRank sd.1 ≤ sevRank "high"
        rw [sevRank_high]
        exact sevRank_le_two sd.1
      · show sd.2 ≤ sd.2 + 60
        linarith
    · rw [if_neg h2]
      by_cases h3 : 3 ≤ hgt
      · rw [if_pos h3]
        refine ⟨?_, ?_⟩
        · show sevRank sd.1 ≤ sevRank (if sd.1 = "low" then "medium" else sd.1)
          by_cases hlow : sd.1 = "low"
          · rw [if_pos hlow, hlow, sevRank_low, sevRank_medium]
            omega
          · rw [if_neg hlow]
        · show sd.2 ≤ sd.2 + 30
          linarith
      · rw [if_neg h3]
        refine ⟨le_rfl, ?_⟩
        show sd.2 ≤ sd.2 + 10
        linarith
  · rw [if_neg h1]
    exact ⟨le_rfl, le_rfl⟩

/-- The wave branch keeps an established high severity. -/
theorem applyWaveImpact_keeps_high (hgt : ℚ) (sd : String × ℚ) (h : sd.1 = "high") :
    (applyWaveImpact hgt sd).1 = "high" := by
  unfold applyWaveImpact
  by_cases h1 : 2 ≤ hgt
  · rw [if_pos h1]
    by_cases h2 : 4 ≤ hgt
    · rw [if_pos h2]
    · rw [if_neg h2]
      by_cases h3 : 3 ≤ hgt
      · rw [if_pos h3]
        show (if sd.1 = "low" then "medium" else sd.1) = "high"
        rw [if_neg (by rw [h]; decide), h]
      · rw [if_neg h3]
        exact h
  · rw [if_neg h1]
    exact h

/-- Storm wind forces high severity and adds 90 minutes. -/
theorem applyWindImpact_storm (v : ℚ) (sd : String × ℚ) (h : 20 ≤ v) :
    (applyWindImpact v sd).1 = "high" ∧ (applyWindImpact v sd).2 = sd.2 + 90 := by
  unfold applyWindImpact
  rw [if_pos (by linarith : (12 : ℚ) ≤ v), if_pos h]
  exact ⟨rfl, rfl⟩

/-- Strong wind escalates at least to medium and adds at least 45 minutes
when the incoming severity is a known level. -/
theorem applyWindImpact_strong (v : ℚ) (sd : String × ℚ) (h : 15 ≤ v)
    (hsd : sd.1 = "low" ∨ sd.1 = "medium" ∨ sd.1 = "high") :
    1 ≤ sevRank (applyWindImpact v sd).1 ∧ sd.2 + 45 ≤ (applyWindImpact v sd).2 := by
  unfold applyWindImpact
  rw [if_pos (by linarith : (12 : ℚ) ≤ v)]
  by_cases h20 : 20 ≤ v
  · rw [if_pos h20]
    refine ⟨?_, ?_⟩
    · show 1 ≤ sevRank "high"
      rw [sevRank_high]
      omega
    · show sd.2 + 45 ≤ sd.2 + 90
      linarith
  · rw [if_neg h20, if_pos h]
    refine ⟨?_, ?_⟩
    · show 1 ≤ sevRank (if sd.1 = "low" then "medium" else sd.1)
      rcases hsd with hl | hm | hh
      · rw [hl]; decide
      · rw [hm]; decide
      · rw [hh]; decide
    · show sd.2 + 45 ≤ sd.2 + 45
      linarith

/-- High seas force high severity and add 60 minutes. -/
theorem applyWaveImpact_high_seas (hgt : ℚ) (sd : String × ℚ) (h : 4 ≤ hgt) :
    (applyWaveImpact hgt sd).1 = "high" ∧ (applyWaveImpact hgt sd).2 = sd.2 + 60 := by
  unfold applyWaveImpact
  rw [if_pos (by linarith : (2 : ℚ) ≤ hgt), if_pos h]
  exact ⟨rfl, rfl⟩

/-- Rough seas escalate at least to medium and add at least 30 minutes when
the incoming severity is a known level. -/
theorem applyWaveImpact_rough (hgt : ℚ) (sd : String × ℚ) (h : 3 ≤ hgt)
    (hsd : sd.1 = "low" ∨ sd.1 = "medium" ∨ sd.1 = "high") :
    1 ≤ sevRank (applyWaveImpact hgt sd).1 ∧ sd.2 + 30 ≤ (applyWaveImpact hgt sd).2 := by
  unfold applyWaveImpact
  rw [if_pos (by linarith : (2 : ℚ) ≤ hgt)]
  by_cases h4 : 4 ≤ hgt
  · rw [if_pos h4]
    refine ⟨?_, ?_⟩
    · show 1 ≤ sevRank "high"
      rw [sevRank_high]
      omega
    · show sd.2 + 30 ≤ sd.2 + 60
      linarith
  · rw [if_neg h4, if_pos h]
    refine ⟨?_, ?_⟩
    · show 1 ≤ sevRank (if sd.1 = "low" then "medium" else sd.1)
      rcases hsd with hl | hm | hh
      · rw [hl]; decide
      · rw [hm]; decide
      · rw [hh]; decide
    · show sd.2 + 30 ≤ sd.2 + 30
      linarith

/-- Below 15 m/s the wind branch never changes severity. -/
theorem applyWindImpact_sev_low_wind (v : ℚ) (sd : String × ℚ) (h : v < 15) :
    (applyWindImpact v sd).1 = sd.1 := by
  unfold applyWindImpact
  by_cases h1 : 12 ≤ v
  · rw [if_pos h1, if_neg (by linarith : ¬(20 : ℚ) ≤ v), if_neg (by linarith : ¬(15 : ℚ) ≤ v)]
  · rw [if_neg h1]

/-- Below 3 m the wave branch never changes severity. -/
theorem applyWaveImpact_sev_low_wave (hgt : ℚ) (sd : String × ℚ) (h : hgt < 3) :
    (applyWaveImpact hgt sd).1 = sd.1 := by
  unfold applyWaveImpact
  by_cases h1 : 2 ≤ hgt
  · rw [if_pos h1, if_neg (by linarith : ¬(4 : ℚ) ≤ hgt), if_neg (by linarith : ¬(3 : ℚ) ≤ hgt)]
  · rw [if_neg h1]

/-- The wind branch keeps the severity inside the known levels. -/
theorem applyWindImpact_sev_mem (v : ℚ) (sd : String × ℚ)
    (hsd : sd.1 = "low" ∨ sd.1 = "medium" ∨ sd.1 = "high") :
    (applyWindImpact v sd).1 = "low" ∨ (applyWindImpact v sd).1 = "medium" ∨
      (applyWindImpact v sd).1 = "high" := by
  unfold applyWindImpact
  by_cases h1 : 12 ≤ v
  · rw [if_pos h1]
    by_cases h2 : 20 ≤ v
    · rw [if_pos h2]
      simp
    · rw [if_neg h2]
      by_cases h3 : 15 ≤ v
      · rw [if_pos h3]
        show (if sd.1 = "low" then "medium" else sd.1) = "low" ∨
          (if sd.1 = "low" then "medium" else sd.1) = "medium" ∨
          (if sd.1 = "low" then "medium" else sd.1) = "high"
        by_cases hlow : sd.1 = "low"
        · rw [if_pos hlow]
          simp
        · rw [if_neg hlow]
          exact hsd
      · rw [if_neg h3]
        exact hsd
  · rw [if_neg h1]
    exact hsd

/-- C6: for every zone and every non-error weather reading,
calculateDynamicSeverity escalates to high with a 90-minute (wind) or
60-minute (wave) penalty when wind reaches 20 m/s or waves reach 4 m,
escalates at least to medium with a 45- or 30-minute penalty at 15 m/s or
3 m, leaves severity untouched below those thresholds (adding only smaller
penalties), and never returns a severity or delay below what the time-based
heuristic alone (weather = none) establishes. -/
theorem C6_dynamic_severity (zone : Zone) (hour day : Nat) (w : ZoneWeather)
    (herr : w.error = false) :
    (((∃ v, w.windSpeed = some v ∧ 20 ≤ v) ∨ (∃ u, w.waveHeight = some u ∧ 4 ≤ u)) →
      (calculateDynamicSeverity zone (some w) hour day).severity = "high") ∧
    (((∃ v, w.windSpeed = some v ∧ 15 ≤ v) ∨ (∃ u, w.waveHeight = some u ∧ 3 ≤ u)) →
      1 ≤ sevRank (calculateDynamicSeverity zone (some w) hour day).severity) ∧
    ((∃ v, w.windSpeed = some v ∧ 15 ≤ v) →
      (calculateDynamicSeverity zone none hour day).estimatedDelay + 45 ≤
        (calculateDynamicSeverity zone (some w) hour day).estimatedDelay) ∧
    ((∃ v, w.windSpeed = some v ∧ 20 ≤ v) →
      (calculateDynamicSeverity zone none hour day).estimatedDelay + 90 ≤
        (calculateDynamicSeverity zone (some w) hour day).estimatedDelay) ∧
    ((∃ u, w.waveHeight = some u ∧ 3 ≤ u) →
      (calculateDynamicSeverity zone none hour day).estimatedDelay + 30 ≤
        (calculateDynamicSeverity zone (some w) hour day).estimatedDelay) ∧
    ((∃ u, w.waveHeight = some u ∧ 4 ≤ u) →
      (calculateDynamicSeverity zone none hour day).estimatedDelay + 60 ≤
        (calculateDynamicSeverity zone (some w) hour day).estimatedDelay) ∧
    (((∀ v, w.windSpeed = some v → v < 15) ∧ (∀ u, w.waveHeight = some u → u < 3)) →
      (calculateDynamicSeverity zone (some w) hour day).severity =
        (calculateDynamicSeverity zone none hour day).severity) ∧
    ((calculateDynamicSeverity zone none hour day).estimatedDelay ≤
      (calculateDynamicSeverity zone (some w) hour day).estimatedDelay) ∧
    (sevRank (calculateDynamicSeverity zone none hour day).severity ≤
      sevRank (calculateDynamicSeverity zone (some w) hour day).severity) := by
  obtain ⟨wind, wave, err⟩ := w
  simp only at herr
  subst herr
  have hmem := activityBase_sev_mem zone hour day
  have hS0 : (calculateDynamicSeverity zone none hour day).severity =
      (activityBase zone hour day).1 := rfl
  have hD0 : (calculateDynamicSeverity zone none hour day).estimatedDelay =
      (activityBase zone hour day).2 := rfl
  cases wind with
  | none =>
    cases wave with
    | none =>
      have hS : (calculateDynamicSeverity zone (some ⟨none, none, false⟩) hour day).severity =
          (activityBase zone hour day).1 := rfl
      have hD : (calculateDynamicSeverity zone (some ⟨none, none, false⟩) hour
          day).estimatedDelay = (activityBase zone hour day).2 := rfl
      refine ⟨?_, ?_, ?_, ?_, ?_, ?_, ?_, ?_, ?_⟩
      · rintro (⟨v, hv, _⟩ | ⟨u, hu, _⟩)
        · simp at hv
        · simp at hu
      · rintro (⟨v, hv, _⟩ | ⟨u, hu, _⟩)
        · simp at hv
        · simp at hu
      · rintro ⟨v, hv, _⟩; simp at hv
      · rintro ⟨v, hv, _⟩; simp at hv
      · rintro ⟨u, hu, _⟩; simp at hu
      · rintro ⟨u, hu, _⟩; simp at hu
      · intro _; rw [hS, hS0]
      · rw [hD, hD0]
      · rw [hS, hS0]
    | some u =>
      have hS : (calculateDynamicSeverity zone (some ⟨none, some u, false⟩) hour day).severity =
          (applyWaveImpact u (activityBase zone hour day)).1 := rfl
      have hD : (calculateDynamicSeverity zone (some ⟨none, some u, false⟩) hour
          day).estimatedDelay = (applyWaveImpact u (activityBase zone hour day)).2 := rfl
      have hmono := applyWaveImpact_mono u (activityBase zone hour day)
      refine ⟨?_, ?_, ?_, ?_, ?_, ?_, ?_, ?_, ?_⟩
      · rintro (⟨v, hv, _⟩ | ⟨u2, hu2, h4⟩)
        · simp at hv
        · simp only [Option.some.injEq] at hu2
          subst hu2
          rw [hS]
          exact (applyWaveImpact_high_seas u _ h4).1
      · rintro (⟨v, hv, _⟩ | ⟨u2, hu2, h3⟩)
        · simp at hv
        · simp only [Option.some.injEq] at hu2
          subst hu2
          rw [hS]
          exact (applyWaveImpact_rough u _ h3 hmem).1
      · rintro ⟨v, hv, _⟩; simp at hv
      · rintro ⟨v, hv, _⟩; simp at hv
      · rintro ⟨u2, hu2, h3⟩
        simp only [Option.some.injEq] at hu2
        subst hu2
        rw [hD, hD0]
        exact (applyWaveImpact_rough u _ h3 hmem).2
      · rintro ⟨u2, hu2, h4⟩
        simp only [Option.some.injEq] at hu2
        subst hu2
        rw [hD, hD0, (applyWaveImpact_high_seas u _ h4).2]
      · rintro ⟨_, hwave⟩
        have hu3 : u < 3 := hwave u rfl
        rw [hS, hS0, applyWaveImpact_sev_low_wave u _ hu3]
      · rw [hD, hD0]; exact hmono.2
      · rw [hS, hS0]; exact hmono.1
  | some v =>
    cases wave with
    | none =>
      have hS : (calculateDynamicSeverity zone (some ⟨some v, none, false⟩) hour day).severity =
          (applyWindImpact v (activityBase zone hour day)).1 := rfl
      have hD : (calculateDynamicSeverity zone (some ⟨some v, none, false⟩) hour
          day).estimatedDelay = (applyWindImpact v (activityBase zone hour day)).2 := rfl
      have hmono := applyWindImpact_mono v (activityBase zone hour day)
      refine ⟨?_, ?_, ?_, ?_, ?_, ?_, ?_, ?_, ?_⟩
      · rintro (⟨v2, hv2, h20⟩ | ⟨u, hu, _⟩)
        · simp only [Option.some.injEq] at hv2
          subst hv2
          rw [hS]
          exact (applyWindImpact_storm v _ h20).1
        · simp at hu
      · rintro (⟨v2, hv2, h15⟩ | ⟨u, hu, _⟩)
        · simp only [Option.some.injEq] at hv2
          subst hv2
          rw [hS]
          exact (applyWindImpact_strong v _ h15 hmem).1
        · simp at hu
      · rintro ⟨v2, hv2, h15⟩
        simp only [Option.some.injEq] at hv2
        subst hv2
        rw [hD, hD0]
        exact (applyWindImpact_strong v _ h15 hmem).2
      · rintro ⟨v2, hv2, h20⟩
        simp only [Option.some.injEq] at hv2
        subst hv2
        rw [hD, hD0, (applyWindImpact_storm v _ h20).2]
      · rintro ⟨u, hu, _⟩; simp at hu
      · rintro ⟨u, hu, _⟩; simp at hu
      · rintro ⟨hwind, _⟩
        have hv15 : v < 15 := hwind v rfl
        rw [hS, hS0, applyWindImpact_sev_low_wind v _ hv15]
      · rw [hD, hD0]; exact hmono.2
      · rw [hS, hS0]; exact hmono.1
    | some u =>
      have hS : (calculateDynamicSeverity zone (some ⟨some v, some u, false⟩) hour
          day).severity =
          (applyWaveImpact u (applyWindImpact v (activityBase zone hour day))).1 := rfl
      have hD : (calculateDynamicSeverity zone (some ⟨some v, some u, false⟩) hour
          day).estimatedDelay =
          (applyWaveImpact u (applyWindImpact v (activityBase zone hour day))).2 := rfl
      have hwmono := applyWindImpact_mono v (activityBase zone hour day)
      have hvmono := applyWaveImpact_mono u (applyWindImpact v (activityBase zone hour day))
      have hwmem := applyWindImpact_sev_mem v (activityBase zone hour day) hmem
      refine ⟨?_, ?_, ?_, ?_, ?_, ?_, ?_, ?_, ?_⟩
      · rintro (⟨v2, hv2, h20⟩ | ⟨u2, hu2, h4⟩)
        · simp only [Option.some.injEq] at hv2
          subst hv2
          rw [hS]
          exact applyWaveImpact_keeps_high u _ (applyWindImpact_storm v _ h20).1
        · simp only [Option.some.injEq] at hu2
          subst hu2
          rw [hS]
          exact (applyWaveImpact_high_seas u _ h4).1
      · rintro (⟨v2, hv2, h15⟩ | ⟨u2, hu2, h3⟩)
        · simp only [Option.some.injEq] at hv2
          subst hv2
          rw [hS]
          exact le_trans (applyWindImpact_strong v _ h15 hmem).1 hvmono.1
        · simp only [Option.some.injEq] at hu2
          subst hu2
          rw [hS]
          exact (applyWaveImpact_rough u _ h3 hwmem).1
      · rintro ⟨v2, hv2, h15⟩
        simp only [Option.some.injEq] at hv2
        subst hv2
        rw [hD, hD0]
        exact le_trans (applyWindImpact_strong v _ h15 hmem).2 hvmono.2
      · rintro ⟨v2, hv2, h20⟩
        simp only [Option.some.injEq] at hv2
        subst hv2
        rw [hD, hD0]
        have h90 := (applyWindImpact_storm v (activityBase zone hour day) h20).2
        calc (activityBase zone hour day).2 + 90
            = (applyWindImpact v (activityBase zone hour day)).2 := h90.symm
          _ ≤ (applyWaveImpact u (applyWindImpact v (activityBase zone hour day))).2 :=
            hvmono.2
      · rintro ⟨u2, hu2, h3⟩
        simp only [Option.some.injEq] at hu2
        subst hu2
        rw [hD, hD0]
        have h30 := (applyWaveImpact_rough u _ h3 hwmem).2
        have := hwmono.2
        linarith
      · rintro ⟨u2, hu2, h4⟩
        simp only [Option.some.injEq] at hu2
        subst hu2
        rw [hD, hD0, (applyWaveImpact_high_seas u _ h4).2]
        have := hwmono.2
        linarith
      · rintro ⟨hwind, hwave⟩
        have hv15 : v < 15 := hwind v rfl
        have hu3 : u < 3 := hwave u rfl
        rw [hS, hS0, applyWaveImpact_sev_low_wave u _ hu3,
          applyWindImpact_sev_low_wind v _ hv15]
      · rw [hD, hD0]; exact le_trans hwmono.2 hvmono.2
      · rw [hS, hS0]; exact le_trans hwmono.1 hvmono.1

/-- Witness for C6_dynamic_severity: Suez zone, storm wind reading. -/
theorem C6_dynamic_severity_witness :
    sevRank (calculateDynamicSeverity
        ⟨"suez", "Suez Canal", "d", 30, 32.3, 120000, 30, none, none⟩ none 3 1).severity ≤
      sevRank (calculateDynamicSeverity
        ⟨"suez", "Suez Canal", "d", 30, 32.3, 120000, 30, none, none⟩
        (some ⟨some 25, some 5, false⟩) 3 1).severity :=
  (C6_dynamic_severity ⟨"suez", "Suez Canal", "d", 30, 32.3, 120000, 30, none, none⟩
    3 1 ⟨some 25, some 5, false⟩ rfl).2.2.2.2.2.2.2.2

/-- A hit test characterisation. -/
theorem hitAtB_true_iff (hav : ℚ → ℚ → ℚ → ℚ → ℚ) (z : Zone) (p : RoutePoint) :
    hitAtB hav z p = true ↔
      (¬(p.lat = 0 ∨ p.lng = 0) ∧ hav p.lat p.lng z.lat z.lng ≤ zoneRadiusEff z) := by
  simp [hitAtB, not_or]

/-- A waypoint with a zero coordinate hits no zone. -/
theorem hitAtB_invalid (hav : ℚ → ℚ → ℚ → ℚ → ℚ) (z : Zone) (p : RoutePoint)
    (h : p.lat = 0 ∨ p.lng = 0) : hitAtB hav z p = false := by
  rcases Bool.eq_false_or_eq_true (hitAtB hav z p) with hb | hb
  · exact absurd h ((hitAtB_true_iff hav z p).mp hb).1
  · exact hb

/-- A waypoint outside the effective radius does not hit the zone. -/
theorem hitAtB_far (hav : ℚ → ℚ → ℚ → ℚ → ℚ) (z : Zone) (p : RoutePoint)
    (h : ¬hav p.lat p.lng z.lat z.lng ≤ zoneRadiusEff z) : hitAtB hav z p = false := by
  rcases Bool.eq_false_or_eq_true (hitAtB hav z p) with hb | hb
  · exact absurd ((hitAtB_true_iff hav z p).mp hb).2 h
  · exact hb

/-- firstHitAux skips an unhit prefix. -/
theorem firstHitAux_append (pred : RoutePoint → Bool) :
    ∀ (l1 l2 : List RoutePoint) (i : Nat), (∀ p ∈ l1, pred p = false) →
      firstHitAux pred i (l1 ++ l2) = firstHitAux pred (i + l1.length) l2 := by
  intro l1
  induction l1 with
  | nil => intro l2 i _; simp [firstHitAux]
  | cons p t ih =>
    intro l2 i hnone
    have hp : pred p = false := hnone p (by simp)
    simp only [List.cons_append, firstHitAux, hp, Bool.false_eq_true, if_false,
      List.append_eq]
    rw [ih l2 (i + 1) (fun q hq => hnone q (by simp [hq]))]
    congr 1
    simp [List.length_cons]
    omega

/-- firstHitAux stops at a hit head. -/
theorem firstHitAux_cons_hit (pred : RoutePoint → Bool) (p : RoutePoint)
    (t : List RoutePoint) (i : Nat) (h : pred p = true) :
    firstHitAux pred i (p :: t) = i := by
  simp [firstHitAux, h]

/-- The scanned state only ever gains passed ids. -/
theorem stepZone_passed_subset (hav : ℚ → ℚ → ℚ → ℚ → ℚ) (dyn : Zone → ℚ × String)
    (p : RoutePoint) (st : ScanState) (z : Zone) :
    st.passed ⊆ (stepZone hav dyn p st z).passed := by
  unfold stepZone
  split_ifs <;> simp [List.subset_cons_of_subset, List.Subset.refl]

/-- Folding zone checks only ever gains passed ids. -/
theorem foldZones_passed_subset (hav : ℚ → ℚ → ℚ → ℚ → ℚ) (dyn : Zone → ℚ × String)
    (p : RoutePoint) :
    ∀ (zs : List Zone) (st : ScanState),
      st.passed ⊆ (zs.foldl (stepZone hav dyn p) st).passed := by
  intro zs
  induction zs with
  | nil => intro st; simp
  | cons z0 t ih =>
    intro st
    simp only [List.foldl_cons]
    exact List.Subset.trans (stepZone_passed_subset hav dyn p st z0) (ih _)

/-- On a catalog with distinct ids, find? by a member id returns that
member. -/
theorem find?_id_of_nodup :
    ∀ (zones : List Zone), (zones.map Zone.id).Nodup →
      ∀ z ∈ zones, zones.find? (fun z2 => z2.id == z.id) = some z := by
  intro zones
  induction zones with
  | nil => intro _ z hz; simp at hz
  | cons z0 t ih =>
    intro hnd z hz
    rcases List.mem_cons.mp hz with hz0 | hzt
    · subst hz0
      rw [List.find?_cons_of_pos _ (by simp)]
    · have hcons : (z0.id :: t.map Zone.id).Nodup := by simpa using hnd
      have hne : z0.id ≠ z.id := by
        have hidmem : z.id ∈ t.map Zone.id := List.mem_map_of_mem Zone.id hzt
        have hnotin : z0.id ∉ t.map Zone.id := (List.nodup_cons.mp hcons).1
        intro hc
        rw [hc] at hnotin
        exact hnotin hidmem
      rw [List.find?_cons_of_neg _ (by simp [hne])]
      exact ih (List.nodup_cons.mp hcons).2 z hzt

/-- One zone check preserves the scan invariant, and afterwards the zone is
either counted or does not hit the current point. -/
theorem stepZone_inv (hav : ℚ → ℚ → ℚ → ℚ → ℚ) (dyn : Zone → ℚ × String)
    (zones : List Zone) (hnd : (zones.map Zone.id).Nodup)
    (routeAll pre suf : List RoutePoint) (p : RoutePoint)
    (hroute : routeAll = pre ++ p :: suf) (hvalid : ¬(p.lat = 0 ∨ p.lng = 0))
    (z0 : Zone) (hz0 : z0 ∈ zones) (st : ScanState)
    (hinv : ScanInv hav zones routeAll pre (pre.length + 1) st) :
    ScanInv hav zones routeAll pre (pre.length + 1) (stepZone hav dyn p st z0) ∧
    (z0.id ∈ (stepZone hav dyn p st z0).passed ∨ hitAtB hav z0 p = false) := by
  obtain ⟨h1, h2, h3, h4, h5⟩ := hinv
  unfold stepZone
  by_cases hmem : z0.id ∈ st.passed
  · rw [if_pos hmem]
    exact ⟨⟨h1, h2, h3, h4, h5⟩, Or.inl hmem⟩
  · rw [if_neg hmem]
    by_cases hdist : hav p.lat p.lng z0.lat z0.lng ≤ zoneRadiusEff z0
    · rw [if_pos hdist]
      have hhit : hitAtB hav z0 p = true := (hitAtB_true_iff hav z0 p).mpr ⟨hvalid, hdist⟩
      have hnohitpre : ∀ q ∈ pre, hitAtB hav z0 q = false := h5 z0 hz0 hmem
      have hfind : zones.find? (fun z2 => z2.id == z0.id) = some z0 :=
        find?_id_of_nodup zones hnd z0 hz0
      have heh : entryHitIdx hav zones routeAll z0.id = pre.length := by
        unfold entryHitIdx
        rw [hfind]
        show firstHitIdx hav z0 routeAll = pre.length
        unfold firstHitIdx
        rw [hroute, firstHitAux_append (hitAtB hav z0) pre (p :: suf) 0 hnohitpre,
          firstHitAux_cons_hit _ _ _ _ hhit]
        omega
      have hnotid : z0.id ∉ st.delays.map DelayEntry.zoneId := by
        intro hc
        apply hmem
        rw [h1]
        simpa using hc
      refine ⟨?_, Or.inl (by simp)⟩
      unfold ScanInv
      refine ⟨?_, ?_, ?_, ?_, ?_⟩
      · show z0.id :: st.passed =
          ((st.delays ++ [(⟨z0.id, z0.name, (resolveDelaySev dyn z0).1,
            (resolveDelaySev dyn z0).2, z0.description⟩ : DelayEntry)]).map
            DelayEntry.zoneId).reverse
        simp [h1]
      · show ((st.delays ++ [(⟨z0.id, z0.name, (resolveDelaySev dyn z0).1,
          (resolveDelaySev dyn z0).2, z0.description⟩ : DelayEntry)]).map
          DelayEntry.zoneId).Nodup
        simp only [List.map_append, List.map_cons, List.map_nil]
        rw [List.nodup_append]
        refine ⟨h2, by simp, ?_⟩
        intro a ha hb
        simp only [List.mem_cons, List.not_mem_nil, or_false] at hb
        subst hb
        exact hnotid ha
      · show List.Pairwise (fun a b => entryHitIdx hav zones routeAll a.zoneId ≤
          entryHitIdx hav zones routeAll b.zoneId)
          (st.delays ++ [(⟨z0.id, z0.name, (resolveDelaySev dyn z0).1,
          (resolveDelaySev dyn z0).2, z0.description⟩ : DelayEntry)])
        rw [List.pairwise_append]
        refine ⟨h3, by simp, ?_⟩
        intro a ha b hb
        simp only [List.mem_cons, List.not_mem_nil, or_false] at hb
        subst hb
        show entryHitIdx hav zones routeAll a.zoneId ≤ entryHitIdx hav zones routeAll z0.id
        rw [heh]
        have := h4 a ha
        omega
      · intro e he
        rcases List.mem_append.mp he with hold | hnew
        · exact h4 e hold
        · simp only [List.mem_cons, List.not_mem_nil, or_false] at hnew
          subst hnew
          show entryHitIdx hav zones routeAll z0.id < pre.length + 1
          rw [heh]
          omega
      · intro z hz hzid q hq
        apply h5 z hz ?_ q hq
        intro hc
        exact hzid (by simp [hc])
    · rw [if_neg hdist]
      exact ⟨⟨h1, h2, h3, h4, h5⟩, Or.inr (hitAtB_far hav z0 p hdist)⟩

/-- Folding the full zone list at one valid waypoint preserves the scan
invariant, and every zone ends up counted or not hitting the waypoint. -/
theorem foldZones_inv (hav : ℚ → ℚ → ℚ → ℚ → ℚ) (dyn : Zone → ℚ × String)
    (zones : List Zone) (hnd : (zones.map Zone.id).Nodup)
    (routeAll pre suf : List RoutePoint) (p : RoutePoint)
    (hroute : routeAll = pre ++ p :: suf) (hvalid : ¬(p.lat = 0 ∨ p.lng = 0)) :
    ∀ (zs : List Zone), (∀ z ∈ zs, z ∈ zones) → ∀ (st : ScanState),
      ScanInv hav zones routeAll pre (pre.length + 1) st →
      ScanInv hav zones routeAll pre (pre.length + 1)
        (zs.foldl (stepZone hav dyn p) st) ∧
      (∀ z ∈ zs, z.id ∈ (zs.foldl (stepZone hav dyn p) st).passed ∨
        hitAtB hav z p = false) := by
  intro zs
  induction zs with
  | nil =>
    intro _ st hinv
    exact ⟨hinv, by simp⟩
  | cons z0 t ih =>
    intro hzs st hinv
    have hz0 : z0 ∈ zones := hzs z0 (by simp)
    obtain ⟨hinv1, hcz0⟩ :=
      stepZone_inv hav dyn zones hnd routeAll pre suf p hroute hvalid z0 hz0 st hinv
    obtain ⟨hinvf, hcomp⟩ :=
      ih (fun z hz => hzs z (by simp [hz])) (stepZone hav dyn p st z0) hinv1
    simp only [List.foldl_cons]
    refine ⟨hinvf, ?_⟩
    intro z hz
    rcases List.mem_cons.mp hz with rfl | hzt
    · rcases hcz0 with hin | hfalse
      · exact Or.inl (foldZones_passed_subset hav dyn p t _ hin)
      · exact Or.inr hfalse
    · exact hcomp z hzt

/-- Processing the remaining route keeps the scan invariant relative to the
whole route. -/
theorem runRoute_inv (hav : ℚ → ℚ → ℚ → ℚ → ℚ) (dyn : Zone → ℚ × String)
    (zones : List Zone) (hnd : (zones.map Zone.id).Nodup) :
    ∀ (suf pre : List RoutePoint) (st : ScanState),
      ScanInv hav zones (pre ++ suf) pre pre.length st →
      ScanInv hav zones (pre ++ suf) (pre ++ suf) (pre ++ suf).length
        (suf.foldl (stepPoint hav dyn zones) st) := by
  intro suf
  induction suf with
  | nil =>
    intro pre st hinv
    simpa using hinv
  | cons p suf2 ih =>
    intro pre st hinv
    simp only [List.foldl_cons]
    have hassoc : pre ++ p :: suf2 = (pre ++ [p]) ++ suf2 := by simp
    have hstep : ScanInv hav zones (pre ++ p :: suf2) (pre ++ [p]) (pre.length + 1)
        (stepPoint hav dyn zones st p) := by
      obtain ⟨h1, h2, h3, h4, h5⟩ := hinv
      unfold stepPoint
      by_cases hval : p.lat = 0 ∨ p.lng = 0
      · rw [if_pos hval]
        refine ⟨h1, h2, h3, fun e he => Nat.lt_succ_of_lt (h4 e he), ?_⟩
        intro z hz hzid q hq
        rcases List.mem_append.mp hq with hqpre | hqp
        · exact h5 z hz hzid q hqpre
        · simp only [List.mem_cons, List.not_mem_nil, or_false] at hqp
          subst hqp
          exact hitAtB_invalid hav z q hval
      · rw [if_neg hval]
        have hinv1 : ScanInv hav zones (pre ++ p :: suf2) pre (pre.length + 1) st :=
          ⟨h1, h2, h3, fun e he => Nat.lt_succ_of_lt (h4 e he), h5⟩
        obtain ⟨hinvf, hcomp⟩ := foldZones_inv hav dyn zones hnd (pre ++ p :: suf2) pre suf2
          p rfl hval zones (fun z hz => hz) st hinv1
        obtain ⟨f1, f2, f3, f4, f5⟩ := hinvf
        refine ⟨f1, f2, f3, f4, ?_⟩
        intro z hz hzid q hq
        rcases List.mem_append.mp hq with hqpre | hqp
        · exact f5 z hz hzid q hqpre
        · simp only [List.mem_cons, List.not_mem_nil, or_false] at hqp
          subst hqp
          rcases hcomp z hz with hin | hfalse
          · exact absurd hin hzid
          · exact hfalse
    have hblen : (pre ++ [p]).length = pre.length + 1 := by simp
    rw [hassoc] at hstep
    rw [← hblen] at hstep
    have hfinal := ih (pre ++ [p]) (stepPoint hav dyn zones st p) hstep
    rw [hassoc]
    exact hfinal

/-- C5: calculateRouteBottleneckDelay records every zone id at most once
(no zone appears twice in delays even when the route re-enters a radius),
lists the delays in route traversal order (the first route index hitting
each recorded zone is non-decreasing along the list), and is a pure
function of its inputs, so a second run returns the identical result. -/
theorem C5_attribution_order (hav : ℚ → ℚ → ℚ → ℚ → ℚ) (dyn : Zone → ℚ × String)
    (route : List RoutePoint) (zones : List Zone)
    (hnd : (zones.map Zone.id).Nodup) :
    ((calculateRouteBottleneckDelay hav dyn route zones).delays.map
      DelayEntry.zoneId).Nodup ∧
    List.Pairwise (fun a b => entryHitIdx hav zones route a.zoneId ≤
      entryHitIdx hav zones route b.zoneId)
      (calculateRouteBottleneckDelay hav dyn route zones).delays ∧
    calculateRouteBottleneckDelay hav dyn route zones =
      calculateRouteBottleneckDelay hav dyn route zones := by
  unfold calculateRouteBottleneckDelay
  by_cases hguard : route.isEmpty ∨ zones.isEmpty
  · rw [if_pos hguard]
    exact ⟨by simp, by simp, rfl⟩
  · rw [if_neg hguard]
    have hinit : ScanInv hav zones ([] ++ route) [] ([] : List RoutePoint).length
        ⟨[], 0, []⟩ := by
      refine ⟨rfl, by simp, by simp, by simp, ?_⟩
      intro z hz hzid q hq
      simp at hq
    have hfin := runRoute_inv hav dyn zones hnd route [] ⟨[], 0, []⟩ hinit
    simp only [List.nil_append] at hfin
    obtain ⟨f1, f2, f3, f4, f5⟩ := hfin
    exact ⟨f2, f3, rfl⟩

/-- Witness for C5_attribution_order on a concrete one-point route and a
one-zone catalog. -/
theorem C5_attribution_order_witness :
    ((calculateRouteBottleneckDelay (fun _ _ _ _ => 0) (fun _ => (5, "low"))
      [⟨1, 1, "a", "waypoint"⟩]
      [⟨"z1", "Zone 1", "d", 0, 0, 100, 10, some 10, some "high"⟩]).delays.map
      DelayEntry.zoneId).Nodup :=
  (C5_attribution_order (fun _ _ _ _ => 0) (fun _ => (5, "low"))
    [⟨1, 1, "a", "waypoint"⟩]
    [⟨"z1", "Zone 1", "d", 0, 0, 100, 10, some 10, some "high"⟩] (by decide)).1

/-- A zero-coordinate waypoint contributes nothing to a point step. -/
theorem stepPoint_invalid (hav : ℚ → ℚ → ℚ → ℚ → ℚ) (dyn : Zone → ℚ × String)
    (zones : List Zone) (st : ScanState) (w : RoutePoint)
    (hw : w.lat = 0 ∨ w.lng = 0) : stepPoint hav dyn zones st w = st := by
  unfold stepPoint
  rw [if_pos hw]

/-- C10: the congestion checks treat a zero latitude or longitude as an
absent position: checkBottleneckProximity returns null, and
calculateRouteBottleneckDelay attributes no delay for such a waypoint (the
result is the same as with the waypoint removed), even when the point lies
inside a zone radius. -/
theorem C10_zero_coordinate_skip (hav : ℚ → ℚ → ℚ → ℚ → ℚ) (dyn : Zone → ℚ × String)
    (zones : List Zone) (vlat vlng : ℚ) (l1 l2 : List RoutePoint) (w : RoutePoint)
    (hpos : vlat = 0 ∨ vlng = 0) (hw : w.lat = 0 ∨ w.lng = 0) :
    checkBottleneckProximity hav dyn zones vlat vlng = none ∧
    calculateRouteBottleneckDelay hav dyn (l1 ++ w :: l2) zones =
      calculateRouteBottleneckDelay hav dyn (l1 ++ l2) zones := by
  constructor
  · unfold checkBottleneckProximity
    rw [if_pos hpos]
  · unfold calculateRouteBottleneckDelay
    by_cases hz : zones.isEmpty
    · rw [if_pos (Or.inr hz), if_pos (Or.inr hz)]
    · have hfold : (l1 ++ w :: l2).foldl (stepPoint hav dyn zones) ⟨[], 0, []⟩ =
          (l1 ++ l2).foldl (stepPoint hav dyn zones) ⟨[], 0, []⟩ := by
        rw [List.foldl_append, List.foldl_append, List.foldl_cons,
          stepPoint_invalid hav dyn zones _ w hw]
      have hg1 : ¬((l1 ++ w :: l2).isEmpty ∨ zones.isEmpty) := by
        intro hc
        rcases hc with hc | hc
        · simp at hc
        · exact hz hc
      by_cases hll : (l1 ++ l2).isEmpty
      · have hnil : l1 = [] ∧ l2 = [] := by
          rcases l1 with _ | ⟨a, t⟩
          · exact ⟨rfl, by simpa using hll⟩
          · simp at hll
        obtain ⟨rfl, rfl⟩ := hnil
        rw [if_neg hg1, if_pos (Or.inl (by simp))]
        rw [show (([] : List RoutePoint) ++ w :: []).foldl (stepPoint hav dyn zones)
          ⟨[], 0, []⟩ = stepPoint hav dyn zones ⟨[], 0, []⟩ w from rfl,
          stepPoint_invalid hav dyn zones _ w hw]
      · have hg2 : ¬((l1 ++ l2).isEmpty ∨ zones.isEmpty) := by
          intro hc
          rcases hc with hc | hc
          · exact absurd hc hll
          · exact hz hc
        rw [if_neg hg1, if_neg hg2, hfold]

/-- Witness for C10_zero_coordinate_skip at zero latitude. -/
theorem C10_zero_coordinate_skip_witness :
    checkBottleneckProximity (fun _ _ _ _ => 0) (fun _ => (5, "low"))
      [⟨"z1", "Zone 1", "d", 0, 0, 100, 10, some 10, some "high"⟩] 0 7 = none :=
  (C10_zero_coordinate_skip (fun _ _ _ _ => 0) (fun _ => (5, "low"))
    [⟨"z1", "Zone 1", "d", 0, 0, 100, 10, some 10, some "high"⟩] 0 7 [] []
    ⟨0, 5, "w", "waypoint"⟩ (Or.inl rfl) (Or.inl rfl)).1

/-- A route with fewer than 2 points covers no distance. -/
theorem routeKmSum_short (hav : ℚ → ℚ → ℚ → ℚ → ℚ) (route : List RoutePoint)
    (h : route.length < 2) : routeKmSum hav route = 0 := by
  match route, h with
  | [], _ => rfl
  | [p], _ => rfl

/-- A zone check that cannot hit leaves the state unchanged. -/
theorem stepZone_id_of_nohit (hav : ℚ → ℚ → ℚ → ℚ → ℚ) (dyn : Zone → ℚ × String)
    (p : RoutePoint) (st : ScanState) (z : Zone)
    (hvalid : ¬(p.lat = 0 ∨ p.lng = 0)) (hfalse : hitAtB hav z p = false) :
    stepZone hav dyn p st z = st := by
  unfold stepZone
  by_cases hmem : z.id ∈ st.passed
  · rw [if_pos hmem]
  · rw [if_neg hmem, if_neg ?_]
    intro hdist
    have := (hitAtB_true_iff hav z p).mpr ⟨hvalid, hdist⟩
    rw [this] at hfalse
    exact absurd hfalse (by simp)

/-- When no route point hits any zone, attribution returns zero delay. -/
theorem calcDelay_of_nohit (hav : ℚ → ℚ → ℚ → ℚ → ℚ) (dyn : Zone → ℚ × String)
    (route : List RoutePoint) (zones : List Zone)
    (hno : ∀ z ∈ zones, ∀ p ∈ route, hitAtB hav z p = false) :
    calculateRouteBottleneckDelay hav dyn route zones = ⟨0, []⟩ := by
  unfold calculateRouteBottleneckDelay
  by_cases hguard : route.isEmpty ∨ zones.isEmpty
  · rw [if_pos hguard]
  · rw [if_neg hguard]
    have hpt : ∀ p ∈ route, ∀ st : ScanState, stepPoint hav dyn zones st p = st := by
      intro p hp st
      unfold stepPoint
      by_cases hval : p.lat = 0 ∨ p.lng = 0
      · rw [if_pos hval]
      · rw [if_neg hval]
        have hall : ∀ zs : List Zone, (∀ z ∈ zs, z ∈ zones) → ∀ st2 : ScanState,
            zs.foldl (stepZone hav dyn p) st2 = st2 := by
          intro zs
          induction zs with
          | nil => intro _ st2; rfl
          | cons z0 t ih =>
            intro hsub st2
            simp only [List.foldl_cons]
            rw [stepZone_id_of_nohit hav dyn p st2 z0 hval
              (hno z0 (hsub z0 (by simp)) p hp), ih (fun z hz => hsub z (by simp [hz])) st2]
        exact hall zones (fun z hz => hz) st
    have hfold : ∀ (l : List RoutePoint), (∀ p ∈ l, p ∈ route) → ∀ st : ScanState,
        l.foldl (stepPoint hav dyn zones) st = st := by
      intro l
      induction l with
      | nil => intro _ st; rfl
      | cons p t ih =>
        intro hsub st
        simp only [List.foldl_cons]
        rw [hpt p (hsub p (by simp)) st, ih (fun q hq => hsub q (by simp [hq])) st]
    rw [hfold route (fun p hp => hp) ⟨[], 0, []⟩]

/-- Field equations of estimateArrival, by definitional unfolding. -/
theorem estimateArrival_fields (hav : ℚ → ℚ → ℚ → ℚ → ℚ) (dyn : Zone → ℚ × String)
    (now : ℚ) (route : List RoutePoint) (clat clng speed : ℚ) (opts : ArrivalOptions) :
    (estimateArrival hav dyn now route clat clng speed opts).distanceRemaining =
      jsRound (calculateRouteDistance hav (splitRouteByPosition hav route clat clng).2) ∧
    (estimateArrival hav dyn now route clat clng speed opts).bottleneckDelayMinutes =
      jsRound (delayResOf hav dyn (splitRouteByPosition hav route clat clng).2
        opts).totalDelayMinutes ∧
    (estimateArrival hav dyn now route clat clng speed opts).hoursRemaining =
      jsRound (calculateRouteDistance hav (splitRouteByPosition hav route clat clng).2 /
        effectiveSpeedOf opts speed +
        (delayResOf hav dyn (splitRouteByPosition hav route clat clng).2
          opts).totalDelayMinutes / 60) ∧
    (estimateArrival hav dyn now route clat clng speed opts).eta =
      now + (calculateRouteDistance hav (splitRouteByPosition hav route clat clng).2 /
        effectiveSpeedOf opts speed +
        (delayResOf hav dyn (splitRouteByPosition hav route clat clng).2
          opts).totalDelayMinutes / 60) * 60 * 60 * 1000 ∧
    (estimateArrival hav dyn now route clat clng speed opts).bottlenecksPassed =
      (delayResOf hav dyn (splitRouteByPosition hav route clat clng).2 opts).delays :=
  ⟨rfl, rfl, rfl, rfl, rfl⟩

/-- C8 (counterexample): with a 1-point route lying exactly at the centre
of a supplied zone (a point at zero distance, as haversine gives for
coincident coordinates), the remaining segment has fewer than 2 points yet
estimateArrival attributes the zone delay of 180 minutes and a 3-hour
remaining time, not the zero delay and zero hours the claim states. -/
theorem C8_degenerate_route_counterexample :
    ((splitRouteByPosition (fun a b c d => if a = c ∧ b = d then 0 else 1000000)
      [⟨30, 32.3, "Point", "waypoint"⟩] 10 10).2).length < 2 ∧
    (estimateArrival (fun a b c d => if a = c ∧ b = d then 0 else 1000000)
      (fun _ => (0, "low")) 0 [⟨30, 32.3, "Point", "waypoint"⟩] 10 10 10
      ⟨none, none, some [⟨"suez", "Suez Canal", "Major trade route", 30, 32.3,
        120000, 30, some 180, some "high"⟩]⟩).bottleneckDelayMinutes = 180 ∧
    (estimateArrival (fun a b c d => if a = c ∧ b = d then 0 else 1000000)
      (fun _ => (0, "low")) 0 [⟨30, 32.3, "Point", "waypoint"⟩] 10 10 10
      ⟨none, none, some [⟨"suez", "Suez Canal", "Major trade route", 30, 32.3,
        120000, 30, some 180, some "high"⟩]⟩).hoursRemaining = 3 := by
  have hsplit2 : (splitRouteByPosition (fun a b c d => if a = c ∧ b = d then 0 else 1000000)
      [⟨30, 32.3, "Point", "waypoint"⟩] 10 10).2 = [⟨30, 32.3, "Point", "waypoint"⟩] := by
    unfold splitRouteByPosition
    rw [if_pos (by norm_num)]
  have hcalc : calculateRouteBottleneckDelay
      (fun a b c d => if a = c ∧ b = d then 0 else 1000000) (fun _ => (0, "low"))
      [⟨30, 32.3, "Point", "waypoint"⟩]
      [⟨"suez", "Suez Canal", "Major trade route", 30, 32.3, 120000, 30, some 180,
        some "high"⟩] =
      ⟨0 + 180, [] ++ [⟨"suez", "Suez Canal", 180, "high", "Major trade route"⟩]⟩ := by
    unfold calculateRouteBottleneckDelay
    rw [if_neg (by simp)]
    simp only [List.foldl_cons, List.foldl_nil]
    unfold stepPoint
    rw [if_neg (by norm_num)]
    simp only [List.foldl_cons, List.foldl_nil]
    unfold stepZone
    rw [if_neg (by simp)]
    rw [if_pos (show (if (30 : ℚ) = 30 ∧ (32.3 : ℚ) = 32.3 then (0 : ℚ) else 1000000) ≤
        zoneRadiusEff ⟨"suez", "Suez Canal", "Major trade route", 30, 32.3, 120000, 30,
          some 180, some "high"⟩ by
      rw [if_pos ⟨rfl, rfl⟩]
      unfold zoneRadiusEff
      rw [if_neg (by norm_num)]
      norm_num)]
    have hres : resolveDelaySev (fun _ => ((0 : ℚ), "low"))
        ⟨"suez", "Suez Canal", "Major trade route", 30, 32.3, 120000, 30, some 180,
          some "high"⟩ = (180, "high") := by
      show (if ("high" : String) ≠ "" then ((180 : ℚ), "high") else ((0 : ℚ), "low")) =
        (180, "high")
      rw [if_pos (by decide)]
    rw [hres]
  have hDR : delayResOf (fun a b c d => if a = c ∧ b = d then 0 else 1000000)
      (fun _ => (0, "low")) [⟨30, 32.3, "Point", "waypoint"⟩]
      ⟨none, none, some [⟨"suez", "Suez Canal", "Major trade route", 30, 32.3,
        120000, 30, some 180, some "high"⟩]⟩ =
      ⟨0 + 180, [] ++ [⟨"suez", "Suez Canal", 180, "high", "Major trade route"⟩]⟩ := by
    show (if 0 < ([⟨"suez", "Suez Canal", "Major trade route", 30, 32.3, 120000, 30,
        some 180, some "high"⟩] : List Zone).length then
      calculateRouteBottleneckDelay
        (fun a b c d => if a = c ∧ b = d then 0 else 1000000) (fun _ => (0, "low"))
        [⟨30, 32.3, "Point", "waypoint"⟩]
        [⟨"suez", "Suez Canal", "Major trade route", 30, 32.3, 120000, 30, some 180,
          some "high"⟩]
      else ⟨0, []⟩) = ⟨0 + 180, [] ++ [⟨"suez", "Suez Canal", 180, "high",
        "Major trade route"⟩]⟩
    rw [if_pos (by norm_num)]
    exact hcalc
  have hdist0 : calculateRouteDistance
      (fun a b c d => if a = c ∧ b = d then 0 else 1000000)
      [⟨30, 32.3, "Point", "waypoint"⟩] = 0 := by
    unfold calculateRouteDistance routeKmSum
    ring
  obtain ⟨-, hb, hh, -, -⟩ := estimateArrival_fields
    (fun a b c d => if a = c ∧ b = d then 0 else 1000000) (fun _ => (0, "low")) 0
    [⟨30, 32.3, "Point", "waypoint"⟩] 10 10 10
    ⟨none, none, some [⟨"suez", "Suez Canal", "Major trade route", 30, 32.3,
      120000, 30, some 180, some "high"⟩]⟩
  refine ⟨?_, ?_, ?_⟩
  · rw [hsplit2]
    norm_num
  · rw [hb, hsplit2, hDR]
    show jsRound (0 + 180) = 180
    unfold jsRound
    norm_num
  · rw [hh, hsplit2, hDR, hdist0]
    have hES : effectiveSpeedOf ⟨none, none, some [⟨"suez", "Suez Canal",
        "Major trade route", 30, 32.3, 120000, 30, some 180, some "high"⟩]⟩ 10 = 10 := by
      show (if (10 : ℚ) ≤ 0 then (12 : ℚ) else 10) = 10
      rw [if_neg (by norm_num)]
    rw [hES]
    show jsRound (0 / 10 + (0 + 180) / 60) = 3
    unfold jsRound
    norm_num

/-- C8 (amended): when the remaining segment after splitting has fewer than
2 points, estimateArrival never throws (it is a total function here),
returns distanceRemaining 0, and returns zero delay, zero hours and
eta = now when no zone catalog is supplied or no supplied zone contains the
remaining point; when the single remaining point does lie inside a supplied
zone, that zone delay is still attributed (see the counterexample). -/
theorem C8_degenerate_route_amended (hav : ℚ → ℚ → ℚ → ℚ → ℚ) (dyn : Zone → ℚ × String)
    (now : ℚ) (route : List RoutePoint) (clat clng speed : ℚ) (opts : ArrivalOptions)
    (hrem : ((splitRouteByPosition hav route clat clng).2).length < 2) :
    (estimateArrival hav dyn now route clat clng speed opts).distanceRemaining = 0 ∧
    (opts.bottlenecks = none →
      (estimateArrival hav dyn now route clat clng speed opts).bottleneckDelayMinutes = 0 ∧
      (estimateArrival hav dyn now route clat clng speed opts).hoursRemaining = 0 ∧
      (estimateArrival hav dyn now route clat clng speed opts).eta = now ∧
      (estimateArrival hav dyn now route clat clng speed opts).bottlenecksPassed = []) ∧
    (∀ bs, opts.bottlenecks = some bs →
      (∀ z ∈ bs, ∀ p ∈ (splitRouteByPosition hav route clat clng).2,
        hitAtB hav z p = false) →
      (estimateArrival hav dyn now route clat clng speed opts).bottleneckDelayMinutes = 0 ∧
      (estimateArrival hav dyn now route clat clng speed opts).hoursRemaining = 0 ∧
      (estimateArrival hav dyn now route clat clng speed opts).eta = now) := by
  have hdist : calculateRouteDistance hav (splitRouteByPosition hav route clat clng).2 = 0 := by
    unfold calculateRouteDistance
    rw [routeKmSum_short hav _ hrem]
    ring
  have hround0 : jsRound 0 = 0 := by
    unfold jsRound
    norm_num
  obtain ⟨hd, hb, hh, he, hp⟩ := estimateArrival_fields hav dyn now route clat clng speed opts
  refine ⟨?_, ?_, ?_⟩
  · rw [hd, hdist, hround0]
  · intro hnone
    have hDR : delayResOf hav dyn (splitRouteByPosition hav route clat clng).2 opts =
        ⟨0, []⟩ := by
      unfold delayResOf
      rw [hnone]
    refine ⟨?_, ?_, ?_, ?_⟩
    · rw [hb, hDR]
      exact hround0
    · rw [hh, hDR, hdist]
      show jsRound (0 / effectiveSpeedOf opts speed + (0 : ℚ) / 60) = 0
      rw [zero_div, zero_div, add_zero]
      exact hround0
    · rw [he, hDR, hdist]
      show now + (0 / effectiveSpeedOf opts speed + (0 : ℚ) / 60) * 60 * 60 * 1000 = now
      rw [zero_div, zero_div]
      ring
    · rw [hp, hDR]
  · intro bs hbs hno
    have hDR : delayResOf hav dyn (splitRouteByPosition hav route clat clng).2 opts =
        ⟨0, []⟩ := by
      unfold delayResOf
      rw [hbs]
      show (if 0 < bs.length then calculateRouteBottleneckDelay hav dyn
          (splitRouteByPosition hav route clat clng).2 bs else ⟨0, []⟩) = ⟨0, []⟩
      by_cases hlen : 0 < bs.length
      · rw [if_pos hlen, calcDelay_of_nohit hav dyn _ bs hno]
      · rw [if_neg hlen]
    refine ⟨?_, ?_, ?_⟩
    · rw [hb, hDR]
      exact hround0
    · rw [hh, hDR, hdist]
      show jsRound (0 / effectiveSpeedOf opts speed + (0 : ℚ) / 60) = 0
      rw [zero_div, zero_div, add_zero]
      exact hround0
    · rw [he, hDR, hdist]
      show now + (0 / effectiveSpeedOf opts speed + (0 : ℚ) / 60) * 60 * 60 * 1000 = now
      rw [zero_div, zero_div]
      ring

/-- Witness for C8 (amended) at a concrete degenerate input. -/
theorem C8_degenerate_route_amended_witness :
    ((splitRouteByPosition (fun _ _ _ _ => 1000000)
      [⟨30, 32.3, "Point", "waypoint"⟩] 10 10).2).length < 2 ∧
    (estimateArrival (fun _ _ _ _ => 1000000) (fun _ => (0, "low")) 5
      [⟨30, 32.3, "Point", "waypoint"⟩] 10 10 10 ⟨none, none, none⟩).eta = 5 := by
  have hr : ((splitRouteByPosition (fun _ _ _ _ => (1000000 : ℚ))
      [⟨30, 32.3, "Point", "waypoint"⟩] 10 10).2).length < 2 := by
    unfold splitRouteByPosition
    rw [if_pos (by norm_num)]
    norm_num
  exact ⟨hr, ((C8_degenerate_route_amended (fun _ _ _ _ => 1000000) (fun _ => (0, "low")) 5
    [⟨30, 32.3, "Point", "waypoint"⟩] 10 10 10 ⟨none, none, none⟩ hr).2.1 rfl).2.2.1⟩

/-- C9: when speedKnots is nonpositive, estimateArrival falls back to the
vessel-type speed table, matched case-insensitively by substring in table
order (12 kn when no vessel type is given or none matches, since
getVesselTypeSpeed returns the same 12 for none); in particular speed 0
with vessel type "container tanker" resolves to the container entry 18 kn,
not the default 12 kn, and the rounded output field reports 18. -/
theorem C9_vessel_type_fallback (hav : ℚ → ℚ → ℚ → ℚ → ℚ) (dyn : Zone → ℚ × String)
    (now : ℚ) (route : List RoutePoint) (clat clng speed : ℚ)
    (vt : Option String) (bns : Option (List Zone)) (hsp : speed ≤ 0) :
    effectiveSpeedOf ⟨vt, none, bns⟩ speed = getVesselTypeSpeed vt ∧
    getVesselTypeSpeed none = 12 ∧
    getVesselTypeSpeed (some "container tanker") = 18 ∧
    (18 : ℚ) ≠ 12 ∧
    (estimateArrival hav dyn now route clat clng speed
      ⟨some "container tanker", none, bns⟩).effectiveSpeed = 18 := by
  have h1 : ∀ vt2 : Option String, effectiveSpeedOf ⟨vt2, none, bns⟩ speed =
      getVesselTypeSpeed vt2 := by
    intro vt2
    cases vt2 with
    | none =>
      show (if speed ≤ 0 then (12 : ℚ) else speed) = getVesselTypeSpeed none
      rw [if_pos hsp]
      rfl
    | some t =>
      show (if speed ≤ 0 then getVesselTypeSpeed (some t) else speed) =
        getVesselTypeSpeed (some t)
      rw [if_pos hsp]
  have h3 : getVesselTypeSpeed (some "container tanker") = 18 := by decide
  refine ⟨h1 vt, rfl, h3, by norm_num, ?_⟩
  have hef : (estimateArrival hav dyn now route clat clng speed
      ⟨some "container tanker", none, bns⟩).effectiveSpeed =
      (jsRound (effectiveSpeedOf ⟨some "container tanker", none, bns⟩ speed * 10) : ℚ) /
        10 := rfl
  rw [hef, h1 (some "container tanker"), h3]
  unfold jsRound
  norm_num

/-- Witness for C9 at speed 0 and vessel type "container tanker". -/
theorem C9_vessel_type_fallback_witness :
    (0 : ℚ) ≤ 0 ∧
    (estimateArrival (fun _ _ _ _ => 0) (fun _ => (0, "low")) 0 [] 0 0 0
      ⟨some "container tanker", none, none⟩).effectiveSpeed = 18 :=
  ⟨le_refl 0, (C9_vessel_type_fallback (fun _ _ _ _ => 0) (fun _ => (0, "low")) 0 [] 0 0 0
    (some "container tanker") none (le_refl 0)).2.2.2.2⟩

end ShipTrack
